import Mathlib

/-!
Verification development for the Domino repository (authoritative game
engine in src/domino/server.ts, shared helpers in src/lib/gameTypes.ts).

Modelling conventions (shallow embedding):
  - JS numbers holding pip values, open ends and scores are modelled as Int
    (the code uses the sentinel -1 for empty-board ends); AI weights,
    epsilon and Q-values are modelled as Rat.
  - String identities (socket ids, domino ids of the form domino-N, AI
    names) are modelled as Nat codes; only equality of these strings is
    ever used by the code.
  - Randomness (shuffle, Math.random draws) is passed in as explicit
    parameters, so every function is a deterministic function of its
    inputs plus the random draws the source makes.
  - The string keys built by getStateKey / getMoveKey (components joined
    with separators) are modelled as the tuples of their components; the
    code only ever compares these keys for equality.
  - The lastAction display string is presentational and is not modelled.
  - Maps (qTable, estimatedOpponentHands) are modelled as association
    lists with the same lookup / insert behaviour.
-/

inductive Side where
  | left
  | right
deriving DecidableEq, Repr

inductive Team where
  | team1
  | team2
deriving DecidableEq, Repr

/-- Value of the winner field: a Team or the draw marker (null is Option.none). -/
inductive Winner where
  | team1
  | team2
  | draw
deriving DecidableEq, Repr

/-- Conversion used wherever the code compares a Team to the winner field. -/
def Team.toWinner : Team → Winner
  | .team1 => .team1
  | .team2 => .team2

inductive Phase where
  | waiting
  | playing
  | finished
deriving DecidableEq, Repr

inductive AIDifficulty where
  | easy
  | medium
  | hard
deriving DecidableEq, Repr

inductive GameMode where
  | multiplayer
  | vsAI
  | withAIPartner
deriving DecidableEq, Repr

/-- Tile model from src/lib/gameTypes.ts: stable id plus two pip values. -/
structure Domino where
  id : Nat
  left : Int
  right : Int
deriving DecidableEq, Repr

structure PlayCheck where
  canPlay : Bool
  sides : List Side
deriving DecidableEq, Repr

structure Player where
  id : Nat
  name : Nat
  team : Team
  hand : List Domino
  isReady : Bool
  isConnected : Bool
  isAI : Bool
  aiDifficulty : Option AIDifficulty
deriving DecidableEq, Repr

structure Scores where
  team1 : Int
  team2 : Int
deriving DecidableEq, Repr

/-- Room state from src/lib/gameTypes.ts (lastAction omitted, see header).
The lastWinner field models the _lastWinner expando property written by
resetRound and read by the startGame handler. -/
structure GameState where
  players : List Player
  board : List Domino
  boardLeftEnd : Int
  boardRightEnd : Int
  currentPlayerIndex : Nat
  gamePhase : Phase
  winner : Option Winner
  passCount : Nat
  scores : Scores
  gameMode : GameMode
  aiDifficulty : AIDifficulty
  lastWinner : Option Winner
deriving DecidableEq, Repr

/-- generateDominoes from src/lib/gameTypes.ts: the 28 tiles (i, j) with
0 <= i <= j <= 6, ids assigned by an increasing counter. -/
def generateDominoes : List Domino :=
  (((List.range 7).map (fun i =>
      ((List.range 7).filter (fun j => i ≤ j)).map (fun j =>
        ((i : Int), (j : Int))))).flatten.enum).map
    (fun p => { id := p.1, left := p.2.1, right := p.2.2 })

/-- canPlayDomino from src/lib/gameTypes.ts. -/
def canPlayDomino (domino : Domino) (leftEnd rightEnd : Int)
    (boardEmpty : Bool) : PlayCheck :=
  if boardEmpty then
    { canPlay := true, sides := [.left, .right] }
  else
    let sides :=
      (if domino.left = leftEnd ∨ domino.right = leftEnd then [Side.left] else []) ++
      (if domino.left = rightEnd ∨ domino.right = rightEnd then [Side.right] else [])
    { canPlay := decide (0 < sides.length), sides := sides }

/-- calculateHandScore from src/lib/gameTypes.ts: sum of both pip values. -/
def calculateHandScore (hand : List Domino) : Int :=
  hand.foldl (fun sum d => sum + d.left + d.right) 0

/-- Entry of the playerTotals list built by the blocked branch of
checkGameOver (server.ts lines 678-682). -/
structure PlayerTotal where
  id : Nat
  team : Team
  total : Int
deriving DecidableEq, Repr

/-- createGame from server.ts (lines 512-532); the lastAction string and
the room id are presentational and not modelled. -/
def createGame (gameMode : GameMode) (aiDifficulty : AIDifficulty) : GameState :=
  { players := [], board := [], boardLeftEnd := -1, boardRightEnd := -1,
    currentPlayerIndex := 0, gamePhase := .waiting, winner := none,
    passCount := 0, scores := { team1 := 0, team2 := 0 },
    gameMode := gameMode, aiDifficulty := aiDifficulty, lastWinner := none }

/-- dealDominoes from server.ts (lines 567-574). The shuffled deck is a
parameter (shuffle is a uniformly random permutation); player index i
receives slice(i*7, (i+1)*7). -/
def dealDominoes (game : GameState) (shuffled : List Domino) : GameState :=
  { game with players := game.players.enum.map (fun p =>
      { p.2 with hand := (shuffled.drop (p.1 * 7)).take 7 }) }

/-- resetRound from server.ts (lines 576-586); records the old winner in
the _lastWinner expando (the lastWinner field here). -/
def resetRound (game : GameState) : GameState :=
  { game with
      lastWinner := game.winner,
      board := [],
      boardLeftEnd := -1,
      boardRightEnd := -1,
      passCount := 0,
      winner := none,
      players := game.players.map (fun p => { p with hand := [] }) }

/-- Descending double scan of findStartingPlayer: for each value v in the
given list, return the first seat index holding the double (v, v). -/
def findStartingPlayerAux (players : List Player) : List Int → Nat
  | [] => 0
  | v :: vs =>
    match players.findIdx? (fun p =>
        p.hand.any (fun d => d.left == v && d.right == v)) with
    | some i => i
    | none => findStartingPlayerAux players vs

/-- findStartingPlayer from server.ts (lines 588-601): scan doubles from
6 down to 0, inner loop over seats in order; fallback 0. -/
def findStartingPlayer (game : GameState) : Nat :=
  findStartingPlayerAux game.players [6, 5, 4, 3, 2, 1, 0]

/-- getNextPlayerIndex from server.ts (lines 603-607). -/
def getNextPlayerIndex (game : GameState) : Nat :=
  (game.currentPlayerIndex + 1) % 4

/-- getNewEnds from server.ts (lines 609-625). -/
def getNewEnds (boardEmpty : Bool) (leftEnd rightEnd : Int)
    (domino : Domino) (side : Side) : Int × Int :=
  if boardEmpty then
    (domino.left, domino.right)
  else
    match side with
    | .left => (if domino.right = leftEnd then domino.left else domino.right, rightEnd)
    | .right => (leftEnd, if domino.left = rightEnd then domino.right else domino.left)

/-- Emptied-hand branch of checkGameOver (server.ts lines 650-671). -/
def emptiedHandOutcome (game : GameState) (currentPlayer : Player) : GameState :=
  let winningPoints := (game.players.filter
      (fun p => p.team ≠ currentPlayer.team)).foldl
    (fun sum p => sum + calculateHandScore p.hand) 0
  let scores :=
    if currentPlayer.team = Team.team1 then
      { game.scores with team1 := game.scores.team1 + winningPoints }
    else
      { game.scores with team2 := game.scores.team2 + winningPoints }
  { game with
      gamePhase := .finished,
      winner := some currentPlayer.team.toWinner,
      scores := scores }

/-- Blocked branch of checkGameOver (server.ts lines 675-716). -/
def blockedOutcome (game : GameState) : GameState :=
  let playerTotals := game.players.map (fun p =>
    ({ id := p.id, team := p.team,
       total := calculateHandScore p.hand } : PlayerTotal))
  let minTotal :=
    match playerTotals.map (fun p => p.total) with
    | [] => 0
    | t :: ts => ts.foldl min t
  let minPlayers := playerTotals.filter (fun p => p.total = minTotal)
  let winner : Winner :=
    match minPlayers with
    | [] => .draw
    | mp0 :: rest =>
      if rest.length = 0 then mp0.team.toWinner
      else if ((minPlayers.map (fun p => p.team)).dedup).length = 1 then
        mp0.team.toWinner
      else .draw
  if winner = .draw then
    { game with gamePhase := .finished, winner := some .draw }
  else
    let winnerPlayerId := ((minPlayers.head?).map (fun p => p.id)).getD 0
    let winningPoints := (playerTotals.filter
        (fun p => p.id ≠ winnerPlayerId)).foldl
      (fun sum p => sum + p.total) 0
    let scores :=
      if winner = Winner.team1 then
        { game.scores with team1 := game.scores.team1 + winningPoints }
      else
        { game.scores with team2 := game.scores.team2 + winningPoints }
    { game with
        gamePhase := .finished,
        winner := some winner,
        scores := scores }

/-- checkGameOver from server.ts (lines 647-720): the pure state part.
The updateLearningOnGameEnd call mutates only the AI registry (modelled
separately) and never the GameState. Returns (gameOver flag, updated
state). Indexing an absent current player or an empty playerTotals list
would throw in JS and is unreachable for a 4-seat room; those cases are
modelled as leaving the state unchanged or as a draw. -/
def checkGameOver (game : GameState) : Bool × GameState :=
  match game.players.get? game.currentPlayerIndex with
  | none => (false, game)
  | some currentPlayer =>
    if currentPlayer.hand.length = 0 then
      (true, emptiedHandOutcome game currentPlayer)
    else if 4 ≤ game.passCount then
      (true, blockedOutcome game)
    else
      (false, game)

/-- Option record produced by getPlayableDominoes. -/
structure PlayableOption where
  domino : Domino
  sides : List Side
deriving DecidableEq, Repr

/-- getPlayableDominoes from server.ts (lines 723-744). -/
def getPlayableDominoes (hand : List Domino) (leftEnd rightEnd : Int)
    (boardEmpty : Bool) : List PlayableOption :=
  hand.filterMap (fun domino =>
    let check := canPlayDomino domino leftEnd rightEnd boardEmpty
    if check.canPlay then some { domino := domino, sides := check.sides }
    else none)

/-- Placement block of the playDomino handler (server.ts lines 1225-1251):
from the pre-move board and open ends, the post-move board sequence and
open ends after appending the (possibly flipped) tile on the chosen side. -/
def humanPlaceBlock (board : List Domino) (leftEnd rightEnd : Int)
    (domino : Domino) (side : Side) : List Domino × Int × Int :=
  if board.length = 0 then
    (board ++ [domino], domino.left, domino.right)
  else
    match side with
    | .left =>
      if domino.right = leftEnd then
        (domino :: board, domino.left, rightEnd)
      else
        let flipped := { domino with left := domino.right, right := domino.left }
        (flipped :: board, flipped.left, rightEnd)
    | .right =>
      if domino.left = rightEnd then
        (board ++ [domino], leftEnd, domino.right)
      else
        let flipped := { domino with left := domino.right, right := domino.left }
        (board ++ [flipped], leftEnd, flipped.right)

/-- Placement block of processAITurn (server.ts lines 841-873), transcribed
independently of humanPlaceBlock from its own lines. -/
def aiPlaceBlock (board : List Domino) (leftEnd rightEnd : Int)
    (domino : Domino) (side : Side) : List Domino × Int × Int :=
  if board.length = 0 then
    (board ++ [domino], domino.left, domino.right)
  else
    match side with
    | .left =>
      if domino.right = leftEnd then
        (domino :: board, domino.left, rightEnd)
      else
        let flipped := { domino with left := domino.right, right := domino.left }
        (flipped :: board, flipped.left, rightEnd)
    | .right =>
      if domino.left = rightEnd then
        (board ++ [domino], leftEnd, domino.right)
      else
        let flipped := { domino with left := domino.right, right := domino.left }
        (board ++ [flipped], leftEnd, flipped.right)

abbrev StateKey := List Int

abbrev MoveKey := Int × Int × Side

abbrev QTable := List (StateKey × List (MoveKey × Rat))

/-- Lookup in an insertion-ordered association list (JS Map.get). -/
def alistLookup {α β : Type} [DecidableEq α] (l : List (α × β)) (k : α) : Option β :=
  (l.find? (fun p => decide (p.1 = k))).map Prod.snd

/-- Update or append in an insertion-ordered association list (JS Map.set). -/
def alistSet {α β : Type} [DecidableEq α] : List (α × β) → α → β → List (α × β)
  | [], k, v => [(k, v)]
  | (k0, v0) :: rest, k, v =>
    if k0 = k then (k, v) :: rest else (k0, v0) :: alistSet rest k v

/-- Heuristic weight record of the LearningAI (server.ts lines 93-101). -/
structure StrategyWeights where
  board_control : Rat
  blocking : Rat
  hand_safety : Rat
  tempo : Rat
  partnership : Rat
  prediction : Rat
deriving DecidableEq, Repr

/-- AI_NAMES from server.ts line 39; the four bot display names are
modelled as the codes 0..3 (only equality and indexOf are used). -/
def AI_NAMES : List Nat := [0, 1, 2, 3]

/-- AI_WEIGHT_PRESETS from server.ts lines 41-84, exact decimal values. -/
def AI_WEIGHT_PRESETS : List StrategyWeights :=
  [ { board_control := 0.2014498660662075, blocking := 0.24908829220870865,
      hand_safety := 0.24537179204042062, tempo := 0.3040900496846632,
      partnership := 0.0, prediction := 0.0 },
    { board_control := 0.25304110495272236, blocking := 0.2724435351947136,
      hand_safety := 0.2587932248933106, tempo := 0.21572213495925355,
      partnership := 0.0, prediction := 0.0 },
    { board_control := 0.17506381959753758, blocking := 0.33263144184289395,
      hand_safety := 0.3333154338599927, tempo := 0.15898930469957576,
      partnership := 0.0, prediction := 0.0 },
    { board_control := 0.28163152547688874, blocking := 0.23428658809204297,
      hand_safety := 0.22462572462271846, tempo := 0.25624735170259827,
      partnership := 0.00320881010575162, prediction := 0.0 } ]

/-- LearningAI instance state (server.ts lines 86-114). The style field is
the constant string learning and is omitted. -/
structure LearningAI where
  playerId : Nat
  difficulty : AIDifficulty
  trainingEnabled : Bool
  learningRate : Rat
  qTable : QTable
  strategyWeights : StrategyWeights
  experienceBuffer : List (StateKey × MoveKey)
  wins : Nat
  losses : Nat
  gamesPlayed : Nat
  winRateHistory : List Rat
  epsilon : Rat
  epsilonDecay : Rat
  minEpsilon : Rat
  qWeight : Rat
  heuristicWeight : Rat
  predictionWeight : Rat
  numberCounts : List Nat
  estimatedOpponentHands : List (Nat × List Domino)
deriving DecidableEq, Repr

/-- LearningAI constructor (server.ts lines 116-162). The randomWeights
parameter stands for the result of initializeWeights (a normalized record
built from Math.random draws); the weightsOverride branch then replaces
weights, epsilon, decay and blend weights exactly as in the source. -/
def mkLearningAI (playerId : Nat) (learningRate : Rat)
    (difficulty : AIDifficulty) (trainingEnabled : Bool)
    (weightsOverride : Option StrategyWeights)
    (randomWeights : StrategyWeights) : LearningAI :=
  let base : LearningAI :=
    { playerId := playerId, difficulty := difficulty,
      trainingEnabled := trainingEnabled, learningRate := learningRate,
      qTable := [], strategyWeights := randomWeights,
      experienceBuffer := [], wins := 0, losses := 0, gamesPlayed := 0,
      winRateHistory := [], epsilon := 0.3, epsilonDecay := 0.995,
      minEpsilon := 0.05, qWeight := 0.6, heuristicWeight := 0.2,
      predictionWeight := 0.2, numberCounts := [0, 0, 0, 0, 0, 0, 0],
      estimatedOpponentHands := [] }
  match weightsOverride with
  | none => base
  | some w =>
    { base with
        strategyWeights := w,
        epsilon := 0.05,
        minEpsilon := 0.05,
        epsilonDecay := 1,
        qWeight := 0,
        heuristicWeight := 1,
        predictionWeight := 0 }

/-- createAIPlayer from server.ts (lines 534-565): builds the Player and
the LearningAI it registers (with trainingEnabled hard-coded to false).
The uuid-based id is the freshId parameter. -/
def createAIPlayer (name : Nat) (team : Team) (difficulty : AIDifficulty)
    (freshId : Nat) (randomWeights : StrategyWeights) :
    Player × LearningAI :=
  let player : Player :=
    { id := freshId, name := name, team := team, hand := [],
      isReady := true, isConnected := true, isAI := true,
      aiDifficulty := some difficulty }
  let weightsOverride :=
    match AI_NAMES.findIdx? (fun n => n == name) with
    | some presetIdx => AI_WEIGHT_PRESETS.get? presetIdx
    | none => none
  (player, mkLearningAI player.id 0.1 difficulty false weightsOverride randomWeights)

/-- getStateKey from server.ts (lines 180-202); the seven components
joined with a separator are modelled as the list of components. -/
def getStateKey (game : GameState) (player : Player) : StateKey :=
  let boardEmpty := game.board.length = 0
  let handPoints := player.hand.foldl (fun s d => s + d.left + d.right) (0 : Int)
  let doublesInHand := (player.hand.filter (fun d => d.left = d.right)).length
  let validMoves := (getPlayableDominoes player.hand game.boardLeftEnd
    game.boardRightEnd boardEmpty).length
  let leftEnd := if boardEmpty then -1 else game.boardLeftEnd
  let rightEnd := if boardEmpty then -1 else game.boardRightEnd
  [ min (player.hand.length : Int) 7,
    min (handPoints / 7) 10,
    min (doublesInHand : Int) 7,
    leftEnd,
    rightEnd,
    min ((game.board.length : Int) / 3) 10,
    min (validMoves : Int) 10 ]

/-- Incrementing one slot of the numberCounts array. -/
def bumpCount (counts : List Nat) (v : Int) : List Nat :=
  counts.set v.toNat (((counts.get? v.toNat).getD 0) + 1)

/-- analyzeHand from server.ts (lines 204-210). -/
def analyzeHand (ai : LearningAI) (player : Player) : LearningAI :=
  let counts := player.hand.foldl
    (fun c d => bumpCount (bumpCount c d.left) d.right) [0, 0, 0, 0, 0, 0, 0]
  { ai with numberCounts := counts }

/-- One pass of the inner for loop of estimateOpponentHands (server.ts
lines 236-247): hand one tile to each opponent that still has remaining
size, in opponent order. -/
def rrPass (sizes : List (Nat × Nat)) (oppIds : List Nat)
    (est : List (Nat × List Domino)) (tiles : List Domino) :
    List (Nat × Nat) × List (Nat × List Domino) × List Domino :=
  match oppIds with
  | [] => (sizes, est, tiles)
  | oid :: rest =>
    match tiles with
    | [] => (sizes, est, [])
    | t :: ts =>
      let left := (alistLookup sizes oid).getD 0
      if 0 < left then
        rrPass (alistSet sizes oid (left - 1)) rest
          (alistSet est oid (((alistLookup est oid).getD []) ++ [t])) ts
      else
        rrPass sizes rest est (t :: ts)

/-- Outer while loop of estimateOpponentHands. The source loop terminates
exactly when the remaining sizes can absorb all tiles (always true in
reachable states); the fuel parameter makes the model total. -/
def rrLoop : Nat → List (Nat × Nat) → List Nat → List (Nat × List Domino) →
    List Domino → List (Nat × List Domino)
  | 0, _, _, est, _ => est
  | _ + 1, _, _, est, [] => est
  | _ + 1, _, [], est, _ :: _ => est
  | fuel + 1, sizes, oid :: rest, est, t :: ts =>
    let r := rrPass sizes (oid :: rest) est (t :: ts)
    rrLoop fuel r.1 (oid :: rest) r.2.1 r.2.2

/-- estimateOpponentHands from server.ts (lines 212-250). The shuffleFn
parameter stands for the shuffle call on the unknown tiles. -/
def estimateOpponentHands (ai : LearningAI) (game : GameState)
    (player : Player) (shuffleFn : List Domino → List Domino) : LearningAI :=
  let allTiles := generateDominoes
  let knownIds0 := (game.board.map (fun d => d.id)) ++
    (player.hand.map (fun d => d.id))
  let partner : Option Player := game.players.find? (fun p =>
    p.team == player.team && p.id != player.id)
  let knownIds : List Nat := match partner with
    | some pt => knownIds0 ++ (pt.hand.map (fun d => d.id))
    | none => knownIds0
  let unknown := allTiles.filter (fun t => ¬ (t.id ∈ knownIds))
  let shuffled := shuffleFn unknown
  let opponents := game.players.filter (fun p => p.team != player.team)
  let sizes := opponents.map (fun p => (p.id, p.hand.length))
  let est0 := opponents.map (fun p => (p.id, ([] : List Domino)))
  let est := rrLoop (shuffled.length + 1) sizes
    (opponents.map (fun p => p.id)) est0 shuffled
  { ai with estimatedOpponentHands := est }

/-- getMoveKey from server.ts (lines 252-256); the string a-b-side is
modelled as the tuple of its components. -/
def getMoveKey (domino : Domino) (side : Side) : MoveKey :=
  (min domino.left domino.right, max domino.left domino.right, side)

/-- getOrCreateState from server.ts (lines 258-264): returns the updated
qTable (an empty per-state map is inserted on a miss) and the per-state map. -/
def getOrCreateState (qTable : QTable) (stateKey : StateKey) :
    QTable × List (MoveKey × Rat) :=
  match alistLookup qTable stateKey with
  | some m => (qTable, m)
  | none => (alistSet qTable stateKey [], [])

/-- evaluateMove from server.ts (lines 266-345). -/
def evaluateMove (ai : LearningAI) (game : GameState) (player : Player)
    (domino : Domino) (side : Side) : Rat :=
  let boardEmpty := game.board.length = 0
  let newEnds := getNewEnds boardEmpty game.boardLeftEnd game.boardRightEnd
    domino side
  let newHand := player.hand.filter (fun d => d.id ≠ domino.id)
  let weights := ai.strategyWeights
  let leftPlayable := (newHand.filter (fun d =>
    d.left = newEnds.1 ∨ d.right = newEnds.1)).length
  let rightPlayable := (newHand.filter (fun d =>
    d.left = newEnds.2 ∨ d.right = newEnds.2)).length
  let boardControl : Rat := ((leftPlayable + rightPlayable : Nat) : Rat) * 10 +
    (if 0 < leftPlayable ∧ 0 < rightPlayable then 20 else 0)
  let score0 := boardControl * weights.board_control
  let blocking : Rat := ai.estimatedOpponentHands.foldl (fun b pr =>
    b - ((pr.2.filter (fun d =>
      d.left = newEnds.1 ∨ d.right = newEnds.1 ∨
      d.left = newEnds.2 ∨ d.right = newEnds.2)).length : Rat) * 7) 0
  let score1 := score0 + blocking * weights.blocking
  let numbersInHand := (newHand.map (fun d => d.left) ++
    newHand.map (fun d => d.right)).dedup
  let handPoints := newHand.foldl (fun s d => s + d.left + d.right) (0 : Int)
  let handSafety : Rat := (numbersInHand.length : Rat) * 5 - (handPoints : Rat) * 2
  let score2 := score1 + handSafety * weights.hand_safety
  let tempo : Rat := (if domino.left = domino.right then 15 else 0) +
    ((domino.left + domino.right : Int) : Rat) * 2
  let score3 := score2 + tempo * weights.tempo
  let partner := game.players.find? (fun p =>
    p.team == player.team && p.id != player.id)
  let partnership : Rat := match partner with
    | some pt => ((pt.hand.filter (fun d =>
        d.left = newEnds.1 ∨ d.right = newEnds.1 ∨
        d.left = newEnds.2 ∨ d.right = newEnds.2)).length : Rat) * 6
    | none => 0
  score3 + partnership * weights.partnership

/-- evaluatePrediction from server.ts (lines 347-398). The -Infinity
best-score accumulator is modelled with Option (none = not yet set). -/
def evaluatePrediction (ai : LearningAI) (game : GameState) (player : Player)
    (domino : Domino) (side : Side) : Rat :=
  let boardEmpty := game.board.length = 0
  let newEnds := getNewEnds boardEmpty game.boardLeftEnd game.boardRightEnd
    domino side
  let nextIndex := getNextPlayerIndex game
  match game.players.get? nextIndex with
  | none => 0
  | some nextPlayer =>
    if nextPlayer.team = player.team then 0
    else
      let estimated := (alistLookup ai.estimatedOpponentHands nextPlayer.id).getD []
      let playable := getPlayableDominoes estimated newEnds.1 newEnds.2 false
      if playable.length = 0 then 25
      else
        let best := playable.foldl (fun acc mv =>
          mv.sides.foldl (fun acc2 moveSide =>
            let baseScore : Rat :=
              (if mv.domino.left = mv.domino.right then 10 else 0) +
              ((mv.domino.left + mv.domino.right : Int) : Rat)
            let ends := getNewEnds false newEnds.1 newEnds.2 mv.domino moveSide
            let countInHand := (estimated.filter (fun d =>
              d.left = ends.1 ∨ d.right = ends.1)).length
            let score := baseScore + (countInHand : Rat) * 4
            match acc2 with
            | none => some score
            | some b => if b < score then some score else some b) acc)
          (none : Option Rat)
        match best with
        | some b => -b * 0.5
        | none => 0

structure ChosenMove where
  domino : Domino
  side : Side
deriving DecidableEq, Repr

/-- chooseMove from server.ts (lines 400-468). randExplore is the
Math.random draw compared against epsilon; randTile and randSide are the
random index draws (reduced modulo the list lengths); shuffleFn is the
shuffle used by estimateOpponentHands. The -Infinity argmax accumulator
is modelled with Option. -/
def chooseMove (ai0 : LearningAI) (game : GameState) (player : Player)
    (shuffleFn : List Domino → List Domino) (randExplore : Rat)
    (randTile randSide : Nat) : LearningAI × Option ChosenMove :=
  let ai1 := analyzeHand ai0 player
  let ai2 := estimateOpponentHands ai1 game player shuffleFn
  let boardEmpty := game.board.length = 0
  let playable := getPlayableDominoes player.hand game.boardLeftEnd
    game.boardRightEnd boardEmpty
  match playable with
  | [] => (ai2, none)
  | p0 :: rest =>
    if rest.length = 0 then
      (ai2, some { domino := p0.domino, side := p0.sides.headD .left })
    else
      let stateKey := getStateKey game player
      let qs := getOrCreateState ai2.qTable stateKey
      let ai3 := { ai2 with qTable := qs.1 }
      let stateMap := qs.2
      if randExplore < ai3.epsilon then
        let choice := (playable.get? (randTile % playable.length)).getD p0
        let side := (choice.sides.get? (randSide % choice.sides.length)).getD .left
        ({ ai3 with experienceBuffer := ai3.experienceBuffer ++
            [(stateKey, getMoveKey choice.domino side)] },
         some { domino := choice.domino, side := side })
      else
        let best := playable.foldl (fun acc option =>
          option.sides.foldl (fun acc2 side =>
            let moveKey := getMoveKey option.domino side
            let qValue := (alistLookup stateMap moveKey).getD 0
            let heuristic := evaluateMove ai3 game player option.domino side
            let prediction := evaluatePrediction ai3 game player option.domino side
            let combined := ai3.qWeight * qValue +
              ai3.heuristicWeight * heuristic +
              ai3.predictionWeight * prediction
            match acc2 with
            | none => some (combined, option.domino, side)
            | some prev =>
              if prev.1 < combined then some (combined, option.domino, side)
              else some prev) acc)
          (none : Option (Rat × Domino × Side))
        let finalMove : ChosenMove := match best with
          | some b => { domino := b.2.1, side := b.2.2 }
          | none => { domino := p0.domino, side := p0.sides.headD .left }
        ({ ai3 with experienceBuffer := ai3.experienceBuffer ++
            [(stateKey, getMoveKey finalMove.domino finalMove.side)] },
         some finalMove)

inductive GameResult where
  | win
  | loss
  | draw
deriving DecidableEq, Repr

/-- The winningPoints read of learnFromGame (server.ts lines 474-479): the
winning team entry of the cumulative score ledger (0 on draw or no winner). -/
def learnWinningPoints (game : GameState) : Rat :=
  match game.winner with
  | some .team1 => (game.scores.team1 : Rat)
  | some .team2 => (game.scores.team2 : Rat)
  | _ => 0

/-- The finalReward of learnFromGame (server.ts lines 481-488). -/
def learnFinalReward (game : GameState) (result : GameResult) : Rat :=
  match result with
  | .win => learnWinningPoints game
  | .loss => -(learnWinningPoints game)
  | .draw => 0

/-- Backward credit-assignment loop of learnFromGame (server.ts lines
493-503), processing the experience buffer from its end (the argument is
the reversed buffer) and multiplying the reward by 0.95 each step. -/
def learnBackward (lr : Rat) : List (StateKey × MoveKey) → Rat → QTable → QTable
  | [], _, qt => qt
  | (st, ac) :: rest, discounted, qt =>
    let qs := getOrCreateState qt st
    let oldQ := (alistLookup qs.2 ac).getD 0
    let updated := oldQ + lr * (discounted - oldQ)
    learnBackward lr rest (discounted * 0.95) (alistSet qs.1 st (alistSet qs.2 ac updated))

/-- learnFromGame from server.ts (lines 470-507). -/
def learnFromGame (ai : LearningAI) (game : GameState)
    (result : GameResult) : LearningAI :=
  if ai.trainingEnabled = false then ai
  else
    let ai1 := { ai with gamesPlayed := ai.gamesPlayed + 1 }
    let finalReward := learnFinalReward game result
    let ai2 := match result with
      | .win => { ai1 with wins := ai1.wins + 1 }
      | .loss => { ai1 with losses := ai1.losses + 1 }
      | .draw => ai1
    let winRate : Rat :=
      if 0 < ai2.gamesPlayed then (ai2.wins : Rat) / (ai2.gamesPlayed : Rat) else 0
    let ai3 := { ai2 with winRateHistory := ai2.winRateHistory ++ [winRate] }
    { ai3 with
        qTable := learnBackward ai3.learningRate ai3.experienceBuffer.reverse
          finalReward ai3.qTable,
        experienceBuffer := [],
        epsilon := max ai3.minEpsilon (ai3.epsilon * ai3.epsilonDecay) }

/-- updateLearningOnGameEnd from server.ts (lines 627-645), acting on the
learningAIs registry (modelled as an association list from player id). -/
def updateLearningOnGameEnd (ais : List (Nat × LearningAI))
    (game : GameState) : List (Nat × LearningAI) :=
  match game.winner with
  | none => ais
  | some w =>
    game.players.foldl (fun reg player =>
      if player.isAI = false then reg
      else
        match alistLookup reg player.id with
        | none => reg
        | some ai =>
          let result : GameResult :=
            if w = .draw then .draw
            else if player.team.toWinner = w then .win
            else .loss
          alistSet reg player.id (learnFromGame ai game result)) ais

/-- Named error conditions; each constructor stands for one of the
socket.emit error messages of server.ts (message texts in comments). -/
inductive GameErr where
  | roomNotFound      -- Game not found!
  | roomExists        -- Game room already exists! Try a different code.
  | teamFull          -- Team N is full!
  | roomFull          -- Game is full!
  | alreadyStarted    -- Game already started!
  | wrongPlayerCount  -- Need 4 players to start!
  | notInGame         -- You are not in this game!
  | notYourTurn       -- It is not your turn!
  | tileNotInHand     -- Domino not in your hand!
  | illegalMove       -- Cannot play this domino!
  | illegalSide       -- Cannot play on this side!
  | hasLegalMove      -- You have a playable domino!
  | cannotAddAI       -- Cannot add AI during active game!
  | lobbyFull         -- Lobby is full!
  | bothTeamsFull     -- Both teams are full!
deriving DecidableEq, Repr

/-- Seat rebuild loop T1,T2,T1,T2 appearing in joinGame, createAIGame,
addAIPlayer and autoFillAI (for i in 0..1 push team1Players of i, push
team2Players of i). -/
def reorderSeats (players : List Player) : List Player :=
  let team1Players := players.filter (fun p => p.team == Team.team1)
  let team2Players := players.filter (fun p => p.team == Team.team2)
  (List.range 2).foldl (fun acc i =>
    (acc ++ (team1Players.get? i).toList) ++ (team2Players.get? i).toList) []

/-- joinGame handler (server.ts lines 1055-1129). A missing room is
created on the spot (never an error); each handler returns the room state
after the handler together with the error, if any, emitted to the caller
alone — a none error is followed by a room-wide broadcast in the source,
a some error never is. The JS sort of lines 1103-1113 returns 0 for every
same-team pair, so a stable sort preserves within-team order, which is
the only thing the following rebuild reads; the sort is therefore
modelled as the identity permutation. -/
def joinGame (existing : Option GameState) (socketId nameCode : Nat)
    (team : Team) : GameState × Option GameErr :=
  let game : GameState := match existing with
    | some g => g
    | none => createGame .multiplayer .medium
  let teamPlayers := game.players.filter (fun p => p.team == team)
  if 2 ≤ teamPlayers.length then (game, some .teamFull)
  else if 4 ≤ game.players.length then (game, some .roomFull)
  else if game.gamePhase ≠ .waiting then (game, some .alreadyStarted)
  else
    let player : Player :=
      { id := socketId, name := nameCode, team := team, hand := [],
        isReady := true, isConnected := true, isAI := false,
        aiDifficulty := none }
    let g1 := { game with players := game.players ++ [player] }
    ({ g1 with players := reorderSeats g1.players }, none)

/-- createAIGame handler (server.ts lines 977-1053). existing is the
directory entry for the requested room code; the result is the directory
entry afterwards plus the error, if any. The fresh uuids and the random
initializeWeights draws of the created bots are the freshIds and rw
parameters, indexed by creation order. -/
def createAIGame (existing : Option GameState) (socketId nameCode : Nat)
    (team : Team) (gameMode : GameMode) (aiDifficulty : AIDifficulty)
    (freshIds : Nat → Nat) (rw : Nat → StrategyWeights) :
    Option GameState × Option GameErr :=
  match existing with
  | some g => (some g, some .roomExists)
  | none =>
    let game := createGame gameMode aiDifficulty
    let humanPlayer : Player :=
      { id := socketId, name := nameCode, team := team, hand := [],
        isReady := true, isConnected := true, isAI := false,
        aiDifficulty := none }
    let g1 := { game with players := game.players ++ [humanPlayer] }
    let g2 :=
      if gameMode = .vsAI then
        let opponentTeam : Team := if team = .team1 then .team2 else .team1
        { g1 with players := g1.players ++
            [(createAIPlayer 0 team aiDifficulty (freshIds 0) (rw 0)).1,
             (createAIPlayer 1 opponentTeam aiDifficulty (freshIds 1) (rw 1)).1,
             (createAIPlayer 2 opponentTeam aiDifficulty (freshIds 2) (rw 2)).1] }
      else if gameMode = .withAIPartner then
        { g1 with players := g1.players ++
            [(createAIPlayer 0 team aiDifficulty (freshIds 0) (rw 0)).1] }
      else g1
    (some { g2 with players := reorderSeats g2.players }, none)

/-- startGame handler (server.ts lines 1131-1175), minus the room lookup
(roomNotFound is a directory miss that touches no room) and the outbound
broadcasts and AI-turn kickoff. shuffled is the freshly shuffled deck
used by dealDominoes. -/
def startGame (game : GameState) (shuffled : List Domino) :
    GameState × Option GameErr :=
  if game.players.length ≠ 4 then (game, some .wrongPlayerCount)
  else if game.gamePhase = .finished ∨ game.gamePhase = .waiting then
    let g0 := if game.gamePhase = .finished then resetRound game else game
    let g1 := dealDominoes g0 shuffled
    let winIdx := fun (t : Team) =>
      match g1.players.findIdx? (fun p => p.team == t) with
      | some i => i
      | none => findStartingPlayer g1
    let idx :=
      match g1.lastWinner with
      | some .team1 => winIdx .team1
      | some .team2 => winIdx .team2
      | _ => findStartingPlayer g1
    ({ g1 with
         currentPlayerIndex := idx,
         lastWinner := none,
         gamePhase := .playing }, none)
  else (game, some .alreadyStarted)

/-- playDomino handler (server.ts lines 1177-1270), minus the room lookup
and the outbound broadcasts and AI chaining. The none branches of the
get? lookups are unreachable (the preceding findIdx? succeeded). -/
def playDomino (game : GameState) (socketId dominoId : Nat) (side : Side) :
    GameState × Option GameErr :=
  match game.players.findIdx? (fun p => p.id == socketId) with
  | none => (game, some .notInGame)
  | some playerIndex =>
    if playerIndex ≠ game.currentPlayerIndex then (game, some .notYourTurn)
    else
      match game.players.get? playerIndex with
      | none => (game, some .notInGame)
      | some player =>
        match player.hand.findIdx? (fun d => d.id == dominoId) with
        | none => (game, some .tileNotInHand)
        | some dominoIndex =>
          match player.hand.get? dominoIndex with
          | none => (game, some .tileNotInHand)
          | some domino =>
            let boardEmpty := game.board.length = 0
            let check := canPlayDomino domino game.boardLeftEnd
              game.boardRightEnd boardEmpty
            if check.canPlay = false then (game, some .illegalMove)
            else if ¬ boardEmpty ∧ side ∉ check.sides then
              (game, some .illegalSide)
            else
              let newPlayers := game.players.set playerIndex
                { player with hand := player.hand.eraseIdx dominoIndex }
              let placed := humanPlaceBlock game.board game.boardLeftEnd
                game.boardRightEnd domino side
              let g1 := { game with
                players := newPlayers,
                board := placed.1,
                boardLeftEnd := placed.2.1,
                boardRightEnd := placed.2.2,
                passCount := 0 }
              let r := checkGameOver g1
              if r.1 then (r.2, none)
              else ({ r.2 with currentPlayerIndex := getNextPlayerIndex r.2 }, none)

/-- pass handler (server.ts lines 1272-1316), minus room lookup,
broadcasts and AI chaining. A caller with no seat and a caller whose seat
is not current both receive the one NotYourTurn error of the source. -/
def passMove (game : GameState) (socketId : Nat) :
    GameState × Option GameErr :=
  match game.players.findIdx? (fun p => p.id == socketId) with
  | none => (game, some .notYourTurn)
  | some playerIndex =>
    if playerIndex ≠ game.currentPlayerIndex then (game, some .notYourTurn)
    else
      match game.players.get? playerIndex with
      | none => (game, some .notYourTurn)
      | some player =>
        let boardEmpty := game.board.length = 0
        let hasPlayable := player.hand.any (fun d =>
          (canPlayDomino d game.boardLeftEnd game.boardRightEnd
            boardEmpty).canPlay)
        if hasPlayable then (game, some .hasLegalMove)
        else
          let g1 := { game with passCount := game.passCount + 1 }
          let r := checkGameOver g1
          if r.1 then (r.2, none)
          else ({ r.2 with currentPlayerIndex := getNextPlayerIndex r.2 }, none)

/-- Tail of the addAIPlayer handler once the target team is fixed
(server.ts lines 1368-1388): pick a free bot name, create and push the
bot, rebuild the T1,T2,T1,T2 seat order. -/
def addAIPlayerFinish (g1 : GameState) (t : Team)
    (difficultyArg : Option AIDifficulty) (freshId fallbackName : Nat)
    (randomWeights : StrategyWeights) : GameState × Option GameErr :=
  let usedNames := g1.players.map (fun p => p.name)
  let availableNames := AI_NAMES.filter (fun n => ¬ (n ∈ usedNames))
  let aiName := availableNames.headD fallbackName
  let aiDifficulty := difficultyArg.getD g1.aiDifficulty
  let newBot := (createAIPlayer aiName t aiDifficulty freshId randomWeights).1
  let g2 := { g1 with players := g1.players ++ [newBot] }
  ({ g2 with players := reorderSeats g2.players }, none)

/-- addAIPlayer handler (server.ts lines 1318-1389), minus room lookup and
broadcast. freshId and randomWeights feed the created bot; fallbackName
is the random Bot-number name drawn when all four preset names are taken. -/
def addAIPlayer (game : GameState) (teamArg : Option Team)
    (difficultyArg : Option AIDifficulty) (freshId fallbackName : Nat)
    (randomWeights : StrategyWeights) : GameState × Option GameErr :=
  let g1 := if game.gamePhase = .waiting then
      { game with players := game.players.filter (fun p => p.isConnected || p.isAI) }
    else game
  if g1.gamePhase ≠ .waiting then (g1, some .cannotAddAI)
  else if 4 ≤ g1.players.length then (g1, some .lobbyFull)
  else
    let targetTeam : Team := match teamArg with
      | some t => t
      | none =>
        let team1Count := (g1.players.filter (fun p => p.team == Team.team1)).length
        let team2Count := (g1.players.filter (fun p => p.team == Team.team2)).length
        if team1Count ≤ team2Count then .team1 else .team2
    let teamCount := (g1.players.filter (fun p => p.team == targetTeam)).length
    if 2 ≤ teamCount then
      let otherTeam : Team := if targetTeam = .team1 then .team2 else .team1
      if 2 ≤ (g1.players.filter (fun p => p.team == otherTeam)).length then
        (g1, some .bothTeamsFull)
      else addAIPlayerFinish g1 otherTeam difficultyArg freshId fallbackName randomWeights
    else addAIPlayerFinish g1 targetTeam difficultyArg freshId fallbackName randomWeights

/-- Fill loop of autoFillAI (server.ts lines 1412-1428); fuel 4 bounds the
while loop (each iteration grows the 4-capped seat list or breaks). The
k-th added bot takes fresh k, fallback k and rw k. -/
def autoFillLoop : Nat → GameState → AIDifficulty → (Nat → Nat) →
    (Nat → Nat) → (Nat → StrategyWeights) → Nat → GameState
  | 0, g, _, _, _, _, _ => g
  | fuel + 1, g, diff, fresh, fallback, rw, k =>
    if g.players.length < 4 then
      let t1 := (g.players.filter (fun p => p.team == Team.team1)).length
      let t2 := (g.players.filter (fun p => p.team == Team.team2)).length
      let targetTeam : Option Team :=
        if t1 ≤ t2 ∧ t1 < 2 then some .team1
        else if t2 < 2 then some .team2
        else none
      match targetTeam with
      | none => g
      | some t =>
        let usedNames := g.players.map (fun p => p.name)
        let availableNames := AI_NAMES.filter (fun n => ¬ (n ∈ usedNames))
        let aiName := availableNames.headD (fallback k)
        let newBot := (createAIPlayer aiName t diff (fresh k) (rw k)).1
        autoFillLoop fuel { g with players := g.players ++ [newBot] }
          diff fresh fallback rw (k + 1)
    else g

/-- autoFillAI handler (server.ts lines 1391-1444), minus room lookup and
broadcast. -/
def autoFillAI (game : GameState) (difficultyArg : Option AIDifficulty)
    (fresh fallback : Nat → Nat) (rw : Nat → StrategyWeights) :
    GameState × Option GameErr :=
  if game.gamePhase ≠ .waiting then (game, some .cannotAddAI)
  else
    let g1 := { game with
      players := game.players.filter (fun p => p.isConnected || p.isAI) }
    let diff := difficultyArg.getD g1.aiDifficulty
    let g2 := autoFillLoop 4 g1 diff fresh fallback rw 0
    ({ g2 with players := reorderSeats g2.players }, none)

/-- C9: the legality oracle. On an empty board every tile is playable on
both sides; on a non-empty board, the left side is offered iff one of the
tile values equals the left open end, the right side iff one equals the
right open end, and the tile is unplayable iff neither value matches
either end. -/
theorem c9_legality_oracle (d : Domino) (leftEnd rightEnd : Int) :
    canPlayDomino d leftEnd rightEnd true =
      { canPlay := true, sides := [.left, .right] } ∧
    (Side.left ∈ (canPlayDomino d leftEnd rightEnd false).sides ↔
      d.left = leftEnd ∨ d.right = leftEnd) ∧
    (Side.right ∈ (canPlayDomino d leftEnd rightEnd false).sides ↔
      d.left = rightEnd ∨ d.right = rightEnd) ∧
    ((canPlayDomino d leftEnd rightEnd false).canPlay = false ↔
      ¬ (d.left = leftEnd ∨ d.right = leftEnd) ∧
      ¬ (d.left = rightEnd ∨ d.right = rightEnd)) := by
  refine ⟨rfl, ?_, ?_, ?_⟩ <;>
    by_cases hL : d.left = leftEnd ∨ d.right = leftEnd <;>
    by_cases hR : d.left = rightEnd ∨ d.right = rightEnd <;>
    simp [canPlayDomino, hL, hR]

/-- C5: on a non-empty board, for a tile legal on the chosen side, the
human placement path (playDomino) and the AI placement path
(processAITurn) produce the same board sequence and the same open ends,
and the new open end on the chosen side is the tile value that does not
equal the matched old open end (either value when a double matched). -/
theorem c5_placement_paths_agree (board : List Domino) (leftEnd rightEnd : Int)
    (d : Domino) (side : Side)
    (hne : board ≠ [])
    (hside : side ∈ (canPlayDomino d leftEnd rightEnd false).sides) :
    humanPlaceBlock board leftEnd rightEnd d side =
      aiPlaceBlock board leftEnd rightEnd d side ∧
    (side = .left →
      (((humanPlaceBlock board leftEnd rightEnd d side).2.1 = d.left ∧
          d.right = leftEnd) ∨
       ((humanPlaceBlock board leftEnd rightEnd d side).2.1 = d.right ∧
          d.left = leftEnd))) ∧
    (side = .right →
      (((humanPlaceBlock board leftEnd rightEnd d side).2.2 = d.right ∧
          d.left = rightEnd) ∨
       ((humanPlaceBlock board leftEnd rightEnd d side).2.2 = d.left ∧
          d.right = rightEnd))) := by
  have hlen : ¬ board.length = 0 := by
    simpa [List.length_eq_zero] using hne
  refine ⟨rfl, ?_, ?_⟩
  · rintro rfl
    have hmatch : d.left = leftEnd ∨ d.right = leftEnd := by
      by_cases h : d.left = leftEnd ∨ d.right = leftEnd
      · exact h
      · exfalso
        by_cases h2 : d.left = rightEnd ∨ d.right = rightEnd <;>
          simp [canPlayDomino, h, h2] at hside
    by_cases hflip : d.right = leftEnd
    · exact Or.inl ⟨by simp [humanPlaceBlock, hlen, hflip], hflip⟩
    · have hl : d.left = leftEnd := hmatch.resolve_right hflip
      exact Or.inr ⟨by simp [humanPlaceBlock, hlen, hflip], hl⟩
  · rintro rfl
    have hmatch : d.left = rightEnd ∨ d.right = rightEnd := by
      by_cases h : d.left = rightEnd ∨ d.right = rightEnd
      · exact h
      · exfalso
        by_cases h2 : d.left = leftEnd ∨ d.right = leftEnd <;>
          simp [canPlayDomino, h, h2] at hside
    by_cases hflip : d.left = rightEnd
    · exact Or.inl ⟨by simp [humanPlaceBlock, hlen, hflip], hflip⟩
    · have hr : d.right = rightEnd := hmatch.resolve_left hflip
      exact Or.inr ⟨by simp [humanPlaceBlock, hlen, hflip], hr⟩

/-- Witness for C5 at the concrete scenario of the spec: open ends (2,5),
tile (5,6) played on the right is flipped and leaves right end 6. -/
theorem c5_placement_paths_agree_witness :
    humanPlaceBlock [{ id := 0, left := 2, right := 5 }] 2 5
        { id := 1, left := 5, right := 6 } .right =
      aiPlaceBlock [{ id := 0, left := 2, right := 5 }] 2 5
        { id := 1, left := 5, right := 6 } .right ∧
    (humanPlaceBlock [{ id := 0, left := 2, right := 5 }] 2 5
        { id := 1, left := 5, right := 6 } .right).2.2 = 6 := by
  have h := c5_placement_paths_agree [{ id := 0, left := 2, right := 5 }] 2 5
    { id := 1, left := 5, right := 6 } .right (by decide) (by decide)
  refine ⟨h.1, ?_⟩
  rcases h.2.2 rfl with h6 | h5
  · exact h6.1
  · exact absurd h5.2 (by decide)

/-- Sample outcome of the initializeWeights random draw, used to
instantiate AI constructions at concrete inputs. -/
def sampleWeights : StrategyWeights :=
  { board_control := 0.25, blocking := 0.25, hand_safety := 0.25,
    tempo := 0.25, partnership := 0, prediction := 0 }

/-- C2 counterexample: constructing an AI with difficulty easy and one
with difficulty hard (same random weights, no override) yields identical
strategy weights, epsilon and blend weights, and the easy AI has learned
value weight 0.6 rather than 0 — the difficulty tag never feeds any
decision parameter. -/
theorem c2_difficulty_presets_counterexample :
    (mkLearningAI 0 0.1 .easy false none sampleWeights).strategyWeights =
      (mkLearningAI 0 0.1 .hard false none sampleWeights).strategyWeights ∧
    (mkLearningAI 0 0.1 .easy false none sampleWeights).epsilon =
      (mkLearningAI 0 0.1 .hard false none sampleWeights).epsilon ∧
    (mkLearningAI 0 0.1 .easy false none sampleWeights).qWeight =
      (mkLearningAI 0 0.1 .hard false none sampleWeights).qWeight ∧
    (mkLearningAI 0 0.1 .easy false none sampleWeights).heuristicWeight =
      (mkLearningAI 0 0.1 .hard false none sampleWeights).heuristicWeight ∧
    (mkLearningAI 0 0.1 .easy false none sampleWeights).predictionWeight =
      (mkLearningAI 0 0.1 .hard false none sampleWeights).predictionWeight ∧
    (mkLearningAI 0 0.1 .easy false none sampleWeights).qWeight ≠ 0 := by
  refine ⟨rfl, rfl, rfl, rfl, rfl, ?_⟩
  show (0.6 : Rat) ≠ 0
  norm_num

/-- C2 amended: the constructed AI decision parameters are independent of
the difficulty tag. Two LearningAI constructions differing only in
difficulty agree on the heuristic weight vector, epsilon, epsilon decay
and floor, and all three blend weights; parameters vary only with the
name-indexed weight override (override present: epsilon 0.05, qWeight 0,
heuristicWeight 1, predictionWeight 0; absent: epsilon 0.3, qWeight 0.6,
heuristicWeight 0.2, predictionWeight 0.2). -/
theorem c2_params_independent_of_difficulty (p : Nat) (lr : Rat)
    (d1 d2 : AIDifficulty) (t : Bool) (o : Option StrategyWeights)
    (w : StrategyWeights) :
    (mkLearningAI p lr d1 t o w).strategyWeights =
      (mkLearningAI p lr d2 t o w).strategyWeights ∧
    (mkLearningAI p lr d1 t o w).epsilon = (mkLearningAI p lr d2 t o w).epsilon ∧
    (mkLearningAI p lr d1 t o w).epsilonDecay =
      (mkLearningAI p lr d2 t o w).epsilonDecay ∧
    (mkLearningAI p lr d1 t o w).minEpsilon =
      (mkLearningAI p lr d2 t o w).minEpsilon ∧
    (mkLearningAI p lr d1 t o w).qWeight = (mkLearningAI p lr d2 t o w).qWeight ∧
    (mkLearningAI p lr d1 t o w).heuristicWeight =
      (mkLearningAI p lr d2 t o w).heuristicWeight ∧
    (mkLearningAI p lr d1 t o w).predictionWeight =
      (mkLearningAI p lr d2 t o w).predictionWeight ∧
    (o.isSome → (mkLearningAI p lr d1 t o w).epsilon = 0.05 ∧
      (mkLearningAI p lr d1 t o w).qWeight = 0 ∧
      (mkLearningAI p lr d1 t o w).heuristicWeight = 1 ∧
      (mkLearningAI p lr d1 t o w).predictionWeight = 0) ∧
    (o.isNone → (mkLearningAI p lr d1 t o w).epsilon = 0.3 ∧
      (mkLearningAI p lr d1 t o w).qWeight = 0.6 ∧
      (mkLearningAI p lr d1 t o w).heuristicWeight = 0.2 ∧
      (mkLearningAI p lr d1 t o w).predictionWeight = 0.2) := by
  cases o <;> simp [mkLearningAI]

/-- Witness for C2: with an override the blend weight on learned values is
0 for every difficulty, and without one it is 0.6 (never the zero the spec
promises for easy). -/
theorem c2_params_independent_of_difficulty_witness :
    (mkLearningAI 0 0.1 .easy false (some sampleWeights) sampleWeights).qWeight = 0 ∧
    (mkLearningAI 0 0.1 .easy false none sampleWeights).qWeight = 0.6 :=
  ⟨((c2_params_independent_of_difficulty 0 0.1 .easy .hard false
      (some sampleWeights) sampleWeights).2.2.2.2.2.2.2.1 rfl).2.1,
   ((c2_params_independent_of_difficulty 0 0.1 .easy .hard false
      none sampleWeights).2.2.2.2.2.2.2.2 rfl).2.1⟩

theorem alistLookup_cons_ne {α β : Type} [DecidableEq α] (k0 k : α) (v0 : β)
    (tl : List (α × β)) (hk : k0 ≠ k) :
    alistLookup ((k0, v0) :: tl) k = alistLookup tl k := by
  simp [alistLookup, List.find?, hk]

theorem alistLookup_mem {α β : Type} [DecidableEq α] (l : List (α × β))
    (k : α) (v : β) (h : alistLookup l k = some v) : (k, v) ∈ l := by
  induction l with
  | nil => simp [alistLookup] at h
  | cons hd tl ih =>
    rcases hd with ⟨k0, v0⟩
    by_cases hk : k0 = k
    · subst hk
      simp [alistLookup, List.find?] at h
      subst h
      exact List.mem_cons_self _ _
    · rw [alistLookup_cons_ne k0 k v0 tl hk] at h
      exact List.mem_cons_of_mem _ (ih h)

theorem alistSet_self {α β : Type} [DecidableEq α] (l : List (α × β))
    (k : α) (v : β) (h : alistLookup l k = some v) : alistSet l k v = l := by
  induction l with
  | nil => simp [alistLookup] at h
  | cons hd tl ih =>
    rcases hd with ⟨k0, v0⟩
    by_cases hk : k0 = k
    · subst hk
      simp [alistLookup, List.find?] at h
      subst h
      simp [alistSet]
    · rw [alistLookup_cons_ne k0 k v0 tl hk] at h
      simp [alistSet, hk, ih h]

theorem alistLookup_set_self {α β : Type} [DecidableEq α] (l : List (α × β))
    (k : α) (v : β) : alistLookup (alistSet l k v) k = some v := by
  induction l with
  | nil => simp [alistSet, alistLookup, List.find?]
  | cons hd tl ih =>
    rcases hd with ⟨k0, v0⟩
    by_cases hk : k0 = k
    · subst hk
      simp [alistSet, alistLookup, List.find?]
    · rw [show alistSet ((k0, v0) :: tl) k v = (k0, v0) :: alistSet tl k v from by
        simp [alistSet, hk]]
      rw [alistLookup_cons_ne k0 k v0 _ hk]
      exact ih

theorem mkLearningAI_trainingEnabled (pid : Nat) (lr : Rat)
    (d : AIDifficulty) (t : Bool) (o : Option StrategyWeights)
    (w : StrategyWeights) : (mkLearningAI pid lr d t o w).trainingEnabled = t := by
  cases o <;> rfl

/-- C10: every AI seat the engine creates is constructed with learning
disabled, so learnFromGame is the identity on it (no Q-value, counter or
epsilon update, no buffer clear, and the round-end hook leaves a registry
of such AIs untouched), while chooseMove still appends one entry to the
experience buffer on every explored or exploited decision (at least two
legal options) and never touches epsilon or the counters — so the buffer
grows without bound across rounds. -/
theorem c10_created_ais_frozen :
    (∀ name team diff fid w,
      (createAIPlayer name team diff fid w).2.trainingEnabled = false) ∧
    (∀ ai g r, ai.trainingEnabled = false → learnFromGame ai g r = ai) ∧
    (∀ reg g, (∀ e ∈ reg, (e : Nat × LearningAI).2.trainingEnabled = false) →
      updateLearningOnGameEnd reg g = reg) ∧
    (∀ ai g player sf re rt rs,
      2 ≤ (getPlayableDominoes player.hand g.boardLeftEnd g.boardRightEnd
        (g.board.length = 0)).length →
      ∃ entry, (chooseMove ai g player sf re rt rs).1.experienceBuffer =
        ai.experienceBuffer ++ [entry]) ∧
    (∀ ai g player sf re rt rs,
      (chooseMove ai g player sf re rt rs).1.epsilon = ai.epsilon ∧
      (chooseMove ai g player sf re rt rs).1.wins = ai.wins ∧
      (chooseMove ai g player sf re rt rs).1.losses = ai.losses ∧
      (chooseMove ai g player sf re rt rs).1.gamesPlayed = ai.gamesPlayed ∧
      (chooseMove ai g player sf re rt rs).1.trainingEnabled = ai.trainingEnabled) := by
  refine ⟨?_, ?_, ?_, ?_, ?_⟩
  · intro name team diff fid w
    exact mkLearningAI_trainingEnabled fid 0.1 diff false _ w
  · intro ai g r h
    simp [learnFromGame, h]
  · intro reg g hall
    unfold updateLearningOnGameEnd
    cases hw : g.winner with
    | none => rfl
    | some w =>
      have key : ∀ (ps : List Player), ps.foldl (fun reg2 player =>
          if player.isAI = false then reg2
          else
            match alistLookup reg2 player.id with
            | none => reg2
            | some ai =>
              let result : GameResult :=
                if w = .draw then .draw
                else if player.team.toWinner = w then .win
                else .loss
              alistSet reg2 player.id (learnFromGame ai g result)) reg = reg := by
        intro ps
        induction ps with
        | nil => rfl
        | cons p ps ih =>
          rw [List.foldl_cons]
          have hstep : (if p.isAI = false then reg
              else
                match alistLookup reg p.id with
                | none => reg
                | some ai =>
                  let result : GameResult :=
                    if w = .draw then .draw
                    else if p.team.toWinner = w then .win
                    else .loss
                  alistSet reg p.id (learnFromGame ai g result)) = reg := by
            by_cases hai : p.isAI = false
            · simp [hai]
            · simp only [hai, if_false]
              cases hl : alistLookup reg p.id with
              | none => rfl
              | some ai =>
                have hmem := alistLookup_mem reg p.id ai hl
                have hfr : ai.trainingEnabled = false := hall _ hmem
                simp only []
                rw [show learnFromGame ai g (if w = .draw then .draw
                    else if p.team.toWinner = w then .win else .loss) = ai from by
                  simp [learnFromGame, hfr]]
                exact alistSet_self reg p.id ai hl
          rw [hstep, ih]
      exact key g.players
  · intro ai g player sf re rt rs hp
    cases hpl : getPlayableDominoes player.hand g.boardLeftEnd g.boardRightEnd
        (g.board.length = 0) with
    | nil =>
      rw [hpl] at hp
      simp at hp
    | cons p0 rest =>
      rw [hpl] at hp
      have hrest : ¬ rest.length = 0 := by
        intro h0
        rw [List.length_cons, h0] at hp
        omega
      simp only [chooseMove, hpl]
      rw [if_neg hrest]
      split
      · exact ⟨_, rfl⟩
      · exact ⟨_, rfl⟩
  · intro ai g player sf re rt rs
    cases hpl : getPlayableDominoes player.hand g.boardLeftEnd g.boardRightEnd
        (g.board.length = 0) with
    | nil =>
      simp only [chooseMove, hpl]
      exact ⟨rfl, rfl, rfl, rfl, rfl⟩
    | cons p0 rest =>
      simp only [chooseMove, hpl]
      by_cases hrest : rest.length = 0
      · rw [if_pos hrest]
        exact ⟨rfl, rfl, rfl, rfl, rfl⟩
      · rw [if_neg hrest]
        split
        · exact ⟨rfl, rfl, rfl, rfl, rfl⟩
        · exact ⟨rfl, rfl, rfl, rfl, rfl⟩

/-- Concrete AI seat and room used to witness C10: an empty board, so both
tiles of the hand are playable (two legal options force the exploit or
explore path that appends to the experience buffer). -/
def c10Player : Player :=
  { id := 1, name := 0, team := .team1,
    hand := [{ id := 0, left := 1, right := 2 }, { id := 1, left := 3, right := 4 }],
    isReady := true, isConnected := true, isAI := true,
    aiDifficulty := some .medium }

def c10Game : GameState :=
  { createGame .multiplayer .medium with
      players := [c10Player], gamePhase := .playing }

/-- Witness for C10 at concrete inputs. -/
theorem c10_created_ais_frozen_witness :
    (createAIPlayer 0 Team.team1 .medium 7 sampleWeights).2.trainingEnabled = false ∧
    learnFromGame (createAIPlayer 0 Team.team1 .medium 7 sampleWeights).2
        (createGame .multiplayer .medium) .draw =
      (createAIPlayer 0 Team.team1 .medium 7 sampleWeights).2 ∧
    (∃ entry, (chooseMove (createAIPlayer 0 Team.team1 .medium 7 sampleWeights).2
        c10Game c10Player id 1 0 0).1.experienceBuffer =
      (createAIPlayer 0 Team.team1 .medium 7 sampleWeights).2.experienceBuffer ++ [entry]) :=
  ⟨c10_created_ais_frozen.1 0 Team.team1 .medium 7 sampleWeights,
   c10_created_ais_frozen.2.1 _ _ _
     (c10_created_ais_frozen.1 0 Team.team1 .medium 7 sampleWeights),
   c10_created_ais_frozen.2.2.2.1 _ c10Game c10Player id 1 0 0 (by decide)⟩

/-- Seat constructor shorthand for concrete scenarios. -/
def mkSeat (pid nm : Nat) (tm : Team) (h : List Domino) : Player :=
  { id := pid, name := nm, team := tm, hand := h, isReady := true,
    isConnected := true, isAI := false, aiDifficulty := none }

/-- Blocked pre-state for C3: seat totals [10,10,3,7] on teams
[T1,T2,T1,T2], passCount 4, and a prior cumulative score of 23 for team 1. -/
def c3Game : GameState :=
  { players := [
      mkSeat 10 0 .team1 [{ id := 0, left := 4, right := 6 }],
      mkSeat 11 1 .team2 [{ id := 1, left := 5, right := 5 }],
      mkSeat 12 2 .team1 [{ id := 2, left := 1, right := 2 }],
      mkSeat 13 3 .team2 [{ id := 3, left := 3, right := 4 }]],
    board := [{ id := 4, left := 0, right := 0 }],
    boardLeftEnd := 0, boardRightEnd := 0,
    currentPlayerIndex := 0, gamePhase := .playing, winner := none,
    passCount := 4, scores := { team1 := 23, team2 := 0 },
    gameMode := .multiplayer, aiDifficulty := .medium, lastWinner := none }

/-- C3 counterexample: after this blocked round the round point value is
27 (seat totals 10+10+7), but the terminal reward computed for a winning
AI is 50 — the winning team's cumulative ledger entry (23 + 27), not the
round's point value. -/
theorem c3_reward_counterexample :
    (checkGameOver c3Game).1 = true ∧
    (checkGameOver c3Game).2.winner = some .team1 ∧
    (checkGameOver c3Game).2.scores.team1 - c3Game.scores.team1 = 27 ∧
    learnFinalReward (checkGameOver c3Game).2 .win = 50 ∧
    (50 : Rat) ≠ 27 := by
  have h2 : (checkGameOver c3Game).2.winner = some .team1 := by decide
  have h50 : (checkGameOver c3Game).2.scores.team1 = 50 := by decide
  refine ⟨by decide, h2, by decide, ?_, by norm_num⟩
  simp [learnFinalReward, learnWinningPoints, h2, h50]

/-- C3 amended: the terminal scalar reward used for backward credit
assignment is the winning team's cumulative score ledger entry at round
end (positive on a win, negated on a loss, 0 on a draw) — the round's
point value only when the prior cumulative score was zero. Stated through
the actual Q-update performed by learnFromGame on a one-entry experience
trail. -/
theorem c3_reward_is_cumulative_score (ai : LearningAI) (g : GameState)
    (result : GameResult) (sk : StateKey) (mk : MoveKey)
    (htr : ai.trainingEnabled = true)
    (hbuf : ai.experienceBuffer = [(sk, mk)]) :
    alistLookup ((alistLookup (learnFromGame ai g result).qTable sk).getD []) mk =
      some ((alistLookup ((alistLookup ai.qTable sk).getD []) mk).getD 0 +
        ai.learningRate *
          ((match result with
            | .win => (match g.winner with
                | some .team1 => (g.scores.team1 : Rat)
                | some .team2 => (g.scores.team2 : Rat)
                | _ => 0)
            | .loss => -(match g.winner with
                | some .team1 => (g.scores.team1 : Rat)
                | some .team2 => (g.scores.team2 : Rat)
                | _ => 0)
            | .draw => 0) -
           (alistLookup ((alistLookup ai.qTable sk).getD []) mk).getD 0)) := by
  have hcond : ¬ (ai.trainingEnabled = false) := by simp [htr]
  have hrw : learnFinalReward g result =
      (match result with
        | .win => (match g.winner with
            | some .team1 => (g.scores.team1 : Rat)
            | some .team2 => (g.scores.team2 : Rat)
            | _ => 0)
        | .loss => -(match g.winner with
            | some .team1 => (g.scores.team1 : Rat)
            | some .team2 => (g.scores.team2 : Rat)
            | _ => 0)
        | .draw => 0) := by
    cases result <;> cases hw : g.winner <;>
      simp [learnFinalReward, learnWinningPoints, hw]
  rw [← hrw]
  unfold learnFromGame
  rw [if_neg hcond]
  cases result with
  | win =>
    simp only [hbuf, List.reverse_cons, List.reverse_nil, List.nil_append,
      learnBackward, getOrCreateState]
    cases hq : alistLookup ai.qTable sk with
    | none =>
      simp only [hq, Option.getD_none, alistLookup_set_self, Option.getD_some]
    | some m =>
      simp only [hq, Option.getD_some, alistLookup_set_self]
  | loss =>
    simp only [hbuf, List.reverse_cons, List.reverse_nil, List.nil_append,
      learnBackward, getOrCreateState]
    cases hq : alistLookup ai.qTable sk with
    | none =>
      simp only [hq, Option.getD_none, alistLookup_set_self, Option.getD_some]
    | some m =>
      simp only [hq, Option.getD_some, alistLookup_set_self]
  | draw =>
    simp only [hbuf, List.reverse_cons, List.reverse_nil, List.nil_append,
      learnBackward, getOrCreateState]
    cases hq : alistLookup ai.qTable sk with
    | none =>
      simp only [hq, Option.getD_none, alistLookup_set_self, Option.getD_some]
    | some m =>
      simp only [hq, Option.getD_some, alistLookup_set_self]

/-- Training-enabled AI with a one-entry experience trail, for the C3
witness. -/
def c3AI : LearningAI :=
  { mkLearningAI 5 0.1 .medium true none sampleWeights with
      experienceBuffer := [([1], ((2 : Int), (3 : Int), Side.left))] }

/-- Witness for C3 amended at concrete inputs (draw round: reward 0). -/
theorem c3_reward_is_cumulative_score_witness :
    alistLookup ((alistLookup (learnFromGame c3AI
        (createGame .multiplayer .medium) .draw).qTable [1]).getD [])
      ((2 : Int), (3 : Int), Side.left) =
      some (0 + c3AI.learningRate * (0 - 0)) :=
  c3_reward_is_cumulative_score c3AI (createGame .multiplayer .medium) .draw
    [1] ((2 : Int), (3 : Int), Side.left) rfl rfl

theorem foldlMin_mem (ts : List Int) (t : Int) : ts.foldl min t ∈ t :: ts := by
  induction ts generalizing t with
  | nil => simp
  | cons a ts ih =>
    rw [List.foldl_cons]
    have hm := ih (min t a)
    rw [List.mem_cons] at hm
    rcases hm with hm | hm
    · rcases min_choice t a with h | h <;> rw [hm, h] <;> simp
    · simp [List.mem_cons, hm]

theorem foldl_add_eq_sum {α : Type} (f : α → Int) (l : List α) (init : Int) :
    l.foldl (fun s x => s + f x) init = init + (l.map f).sum := by
  induction l generalizing init with
  | nil => simp
  | cons a l ih =>
    rw [List.foldl_cons, ih, List.map_cons, List.sum_cons]
    ring

theorem sum_filter_ne_id (l : List PlayerTotal) (e : PlayerTotal)
    (hnd : (l.map (fun p => p.id)).Nodup) (hmem : e ∈ l) :
    ((l.filter (fun p => p.id ≠ e.id)).map (fun p => p.total)).sum =
      (l.map (fun p => p.total)).sum - e.total := by
  induction l with
  | nil => cases hmem
  | cons h t ih =>
    rw [List.map_cons, List.nodup_cons] at hnd
    rw [List.mem_cons] at hmem
    by_cases hid : h.id = e.id
    · have he : e = h := by
        rcases hmem with he | hmemt
        · exact he
        · exact absurd (List.mem_map.mpr ⟨e, hmemt, hid.symm⟩) hnd.1
      have hkeep : t.filter (fun p => p.id ≠ e.id) = t := by
        apply List.filter_eq_self.mpr
        intro a ha
        simp only [ne_eq, decide_eq_true_eq]
        intro haid
        exact hnd.1 (List.mem_map.mpr ⟨a, ha, haid.trans hid.symm⟩)
      rw [List.filter_cons_of_neg (by simp [hid]), hkeep, he,
        List.map_cons, List.sum_cons]
      ring
    · have hmemt : e ∈ t := by
        rcases hmem with he | hmemt
        · exact absurd (congrArg (fun p => p.id) he).symm hid
        · exact hmemt
      rw [List.filter_cons_of_pos (by simp [hid]), List.map_cons, List.sum_cons,
        List.map_cons, List.sum_cons, ih hnd.2 hmemt]
      ring

theorem dedup_all_eq {α : Type} [DecidableEq α] (l : List α) (a : α)
    (hne : l ≠ []) (hall : ∀ x ∈ l, x = a) : l.dedup = [a] := by
  induction l with
  | nil => exact absurd rfl hne
  | cons x t ih =>
    have hx : x = a := hall x (List.mem_cons_self _ _)
    cases t with
    | nil => simp [List.dedup_cons_of_not_mem, hx]
    | cons y t2 =>
      have hy : y = a := hall y (List.mem_cons_of_mem _ (List.mem_cons_self _ _))
      have hmem : x ∈ y :: t2 := by
        rw [hx, hy]
        exact List.mem_cons_self _ _
      rw [List.dedup_cons_of_mem hmem]
      exact ih (by simp) (fun z hz => hall z (List.mem_cons_of_mem _ hz))

theorem mem_dedup_singleton {α : Type} [DecidableEq α] (l : List α) (c : α)
    (hd : l.dedup = [c]) : ∀ x ∈ l, x = c := by
  intro x hx
  have : x ∈ l.dedup := List.mem_dedup.mpr hx
  rw [hd] at this
  simpa using this

/-- Hand total of one seat (spec language for the blocked scoring rule). -/
def seatTotal (p : Player) : Int := calculateHandScore p.hand

/-- Minimum of the four seat totals (foldl-min over the nonempty list). -/
def blockedMinTotal (g : GameState) : Int :=
  match g.players.map seatTotal with
  | [] => 0
  | t :: ts => ts.foldl min t

/-- Seats achieving the minimum total, in seat order. -/
def blockedMinSeats (g : GameState) : List Player :=
  g.players.filter (fun p => seatTotal p = blockedMinTotal g)

/-- Score ledger effect: team t gains delta, the other team is unchanged. -/
def teamGains (g g2 : GameState) (t : Team) (delta : Int) : Prop :=
  match t with
  | .team1 => g2.scores.team1 = g.scores.team1 + delta ∧
      g2.scores.team2 = g.scores.team2
  | .team2 => g2.scores.team2 = g.scores.team2 + delta ∧
      g2.scores.team1 = g.scores.team1

/-- Projection Player to PlayerTotal used by the blocked branch. -/
def ptProj (p : Player) : PlayerTotal :=
  { id := p.id, team := p.team, total := calculateHandScore p.hand }

/-- Blocked pre-state with seat totals [3,10,3,7] on teams [T1,T2,T1,T2]:
seats 0 and 2 tie at the minimum 3, both on team1. -/
def c1Game : GameState :=
  { players := [
      mkSeat 10 0 .team1 [{ id := 0, left := 1, right := 2 }],
      mkSeat 11 1 .team2 [{ id := 1, left := 4, right := 6 }],
      mkSeat 12 2 .team1 [{ id := 2, left := 0, right := 3 }],
      mkSeat 13 3 .team2 [{ id := 3, left := 3, right := 4 }]],
    board := [{ id := 4, left := 0, right := 0 }],
    boardLeftEnd := 0, boardRightEnd := 0,
    currentPlayerIndex := 0, gamePhase := .playing, winner := none,
    passCount := 4, scores := { team1 := 0, team2 := 0 },
    gameMode := .multiplayer, aiDifficulty := .medium, lastWinner := none }

/-- C1 counterexample: when two seats of the winning team tie at the
minimum, the code sums every seat except the FIRST minimum seat
(10 + 3 + 7 = 20) instead of the claimed sum of non-minimum seats
(10 + 7 = 17). -/
theorem c1_blocked_scoring_counterexample :
    (checkGameOver c1Game).1 = true ∧
    (checkGameOver c1Game).2.winner = some .team1 ∧
    (checkGameOver c1Game).2.scores.team1 = 20 ∧
    ((20 : Int) ≠ 10 + 7) := by decide

theorem pt_lambda_eq :
    (fun p => ({ id := p.id,
                 team := p.team,
                 total := calculateHandScore p.hand } : PlayerTotal)) = ptProj := rfl

theorem pt_map_total (g : GameState) :
    ((g.players.map ptProj).map (fun x => x.total)) = g.players.map seatTotal := by
  rw [List.map_map]
  rfl

theorem pt_minTotal (g : GameState) :
    (match (g.players.map ptProj).map (fun x => x.total) with
      | [] => (0 : Int)
      | t :: ts => ts.foldl min t) = blockedMinTotal g := by
  rw [pt_map_total]
  rfl

theorem pt_filter (g : GameState) :
    ((g.players.map ptProj).filter (fun x => x.total = blockedMinTotal g)) =
      (blockedMinSeats g).map ptProj := by
  rw [List.filter_map ptProj g.players]
  rfl
theorem blockedOutcome_decisive (g : GameState) (p : Player) (pts : List Player)
    (hp : blockedMinSeats g = p :: pts)
    (hcase : pts = [] ∨ ∀ x ∈ blockedMinSeats g, x.team = p.team)
    (hids : (g.players.map (fun q => q.id)).Nodup) :
    (blockedOutcome g).gamePhase = .finished ∧
    (blockedOutcome g).winner = some p.team.toWinner ∧
    teamGains g (blockedOutcome g) p.team
      ((g.players.map seatTotal).sum - blockedMinTotal g) := by
  have hwne : ¬ (ptProj p).team.toWinner = Winner.draw := by
    show ¬ p.team.toWinner = Winner.draw
    cases p.team <;> simp [Team.toWinner]
  have hwp : ((g.players.map ptProj).filter
      (fun x => x.id ≠ (ptProj p).id)).foldl (fun sum x => sum + x.total) 0 =
      (g.players.map seatTotal).sum - blockedMinTotal g := by
    rw [foldl_add_eq_sum]
    have hnd2 : ((g.players.map ptProj).map (fun x => x.id)).Nodup := by
      rw [List.map_map]
      exact hids
    have hpmem : p ∈ g.players := by
      have hmem : p ∈ blockedMinSeats g := by
        rw [hp]
        exact List.mem_cons_self _ _
      exact List.mem_of_mem_filter hmem
    have hppt : ptProj p ∈ g.players.map ptProj := List.mem_map.mpr ⟨p, hpmem, rfl⟩
    rw [sum_filter_ne_id (g.players.map ptProj) (ptProj p) hnd2 hppt]
    rw [pt_map_total]
    have hpt : seatTotal p = blockedMinTotal g := by
      have hmem : p ∈ blockedMinSeats g := by
        rw [hp]
        exact List.mem_cons_self _ _
      have hflt := List.mem_filter.mp hmem
      simpa using hflt.2
    have hpt2 : (ptProj p).total = blockedMinTotal g := hpt
    rw [hpt2]
    ring
  have hW : (if (List.map ptProj pts).length = 0 then (ptProj p).team.toWinner
      else if ((ptProj p).team ::
          List.map (fun x => x.team) (List.map ptProj pts)).dedup.length = 1 then
        (ptProj p).team.toWinner
      else Winner.draw) = (ptProj p).team.toWinner := by
    by_cases hlen : (List.map ptProj pts).length = 0
    · rw [if_pos hlen]
    · rw [if_neg hlen]
      rcases hcase with hnil | hall
      · subst hnil
        simp at hlen
      · have hded : ((ptProj p).team ::
            List.map (fun x => x.team) (List.map ptProj pts)).dedup =
            [(ptProj p).team] := by
          apply dedup_all_eq
          · simp
          · intro x hx
            rw [List.mem_cons] at hx
            rcases hx with rfl | hx
            · rfl
            · rw [List.map_map] at hx
              rcases List.mem_map.mp hx with ⟨q, hq, hxq⟩
              have hq2 : q ∈ blockedMinSeats g := by
                rw [hp]
                exact List.mem_cons_of_mem _ hq
              rw [← hxq]
              show q.team = (ptProj p).team
              exact hall q hq2
        rw [hded]
        simp
  have hkey : blockedOutcome g =
      { g with
          gamePhase := Phase.finished,
          winner := some (ptProj p).team.toWinner,
          scores :=
            if (ptProj p).team.toWinner = Winner.team1 then
              { team1 := g.scores.team1 + ((g.players.map ptProj).filter
                  (fun x => x.id ≠ (ptProj p).id)).foldl
                    (fun sum x => sum + x.total) 0,
                team2 := g.scores.team2 }
            else
              { team1 := g.scores.team1,
                team2 := g.scores.team2 + ((g.players.map ptProj).filter
                  (fun x => x.id ≠ (ptProj p).id)).foldl
                    (fun sum x => sum + x.total) 0 } } := by
    conv_lhs => simp only [blockedOutcome]
    conv_lhs => rw [pt_lambda_eq, pt_minTotal, pt_filter, hp]
    conv_lhs => simp only [List.map_cons]
    rw [hW, if_neg hwne]
    simp only [List.head?_cons, Option.map_some', Option.getD_some]
  refine ⟨by rw [hkey], by rw [hkey]; rfl, ?_⟩
  rw [hkey]
  cases hteam : p.team with
  | team1 =>
    have ht2 : (ptProj p).team = Team.team1 := hteam
    have hcond : (ptProj p).team.toWinner = Winner.team1 := by
      rw [ht2]
      rfl
    show teamGains g _ Team.team1 _
    unfold teamGains
    rw [if_pos hcond]
    exact ⟨by rw [hwp], rfl⟩
  | team2 =>
    have ht2 : (ptProj p).team = Team.team2 := hteam
    have hcond : ¬ (ptProj p).team.toWinner = Winner.team1 := by
      rw [ht2]
      simp [Team.toWinner]
    show teamGains g _ Team.team2 _
    unfold teamGains
    rw [if_neg hcond]
    exact ⟨by rw [hwp], rfl⟩
theorem blockedOutcome_draw (g : GameState)
    (hspan : ∃ p ∈ blockedMinSeats g, ∃ q ∈ blockedMinSeats g, p.team ≠ q.team) :
    (blockedOutcome g).gamePhase = .finished ∧
    (blockedOutcome g).winner = some Winner.draw ∧
    (blockedOutcome g).scores = g.scores := by
  rcases hspan with ⟨p, hpmem, q, hqmem, hpq⟩
  rcases hms : blockedMinSeats g with _ | ⟨a, _ | ⟨b, t⟩⟩
  · rw [hms] at hpmem
    cases hpmem
  · rw [hms] at hpmem hqmem
    have hpa := List.mem_singleton.mp hpmem
    have hqa := List.mem_singleton.mp hqmem
    exact absurd (by rw [hpa, hqa]) hpq
  · have hW : (if (ptProj b :: List.map ptProj t).length = 0 then
          (ptProj a).team.toWinner
        else if ((ptProj a).team :: (ptProj b).team ::
            List.map (fun x => x.team) (List.map ptProj t)).dedup.length = 1 then
          (ptProj a).team.toWinner
        else Winner.draw) = Winner.draw := by
      rw [if_neg (by simp)]
      by_cases hded : ((ptProj a).team :: (ptProj b).team ::
          List.map (fun x => x.team) (List.map ptProj t)).dedup.length = 1
      · exfalso
        rcases List.length_eq_one.mp hded with ⟨c, hc⟩
        have hallc := mem_dedup_singleton _ c hc
        have hmemteam : ∀ x ∈ blockedMinSeats g, x.team ∈
            ((ptProj a).team :: (ptProj b).team ::
              List.map (fun x => x.team) (List.map ptProj t)) := by
          intro x hx
          rw [hms] at hx
          rw [List.mem_cons] at hx
          rcases hx with rfl | hx
          · exact List.mem_cons_self _ _
          · rw [List.mem_cons] at hx
            rcases hx with rfl | hx
            · exact List.mem_cons_of_mem _ (List.mem_cons_self _ _)
            · apply List.mem_cons_of_mem
              apply List.mem_cons_of_mem
              rw [List.map_map]
              exact List.mem_map.mpr ⟨x, hx, rfl⟩
        have h1 := hallc _ (hmemteam p hpmem)
        have h2 := hallc _ (hmemteam q hqmem)
        exact hpq (h1.trans h2.symm)
      · rw [if_neg hded]
    have hkey : blockedOutcome g =
        { g with gamePhase := Phase.finished, winner := some Winner.draw } := by
      conv_lhs => simp only [blockedOutcome]
      conv_lhs => rw [pt_lambda_eq, pt_minTotal, pt_filter, hms]
      conv_lhs => simp only [List.map_cons]
      rw [hW, if_pos rfl]
    exact ⟨by rw [hkey], by rw [hkey], by rw [hkey]⟩

/-- C1 amended: on blockage (passCount at 4, current hand nonempty), the
round ends with winner determination exactly as claimed (unique minimum
seat: its team; tied minimum on one team: that team; minimum spanning
both teams: draw with no score change), but on a decisive win the winning
team gains the sum of ALL seat totals minus the minimum total — i.e. the
sum over every seat other than the FIRST minimum seat in seat order,
which also counts the totals of any further seats tied at the minimum;
this equals the claimed sum of non-minimum seats only when the minimum is
unique. -/
theorem c1_blocked_termination (g : GameState) (cur : Player)
    (hcur : g.players.get? g.currentPlayerIndex = some cur)
    (hhand : cur.hand ≠ [])
    (hpass : 4 ≤ g.passCount)
    (hids : (g.players.map (fun q => q.id)).Nodup) :
    (checkGameOver g).1 = true ∧
    (checkGameOver g).2.gamePhase = .finished ∧
    (∀ p, blockedMinSeats g = [p] →
      (checkGameOver g).2.winner = some p.team.toWinner ∧
      teamGains g (checkGameOver g).2 p.team
        ((g.players.map seatTotal).sum - blockedMinTotal g)) ∧
    (∀ p q rest, blockedMinSeats g = p :: q :: rest →
      (∀ x ∈ blockedMinSeats g, x.team = p.team) →
      (checkGameOver g).2.winner = some p.team.toWinner ∧
      teamGains g (checkGameOver g).2 p.team
        ((g.players.map seatTotal).sum - blockedMinTotal g)) ∧
    ((∃ p ∈ blockedMinSeats g, ∃ q ∈ blockedMinSeats g, p.team ≠ q.team) →
      (checkGameOver g).2.winner = some Winner.draw ∧
      (checkGameOver g).2.scores = g.scores) := by
  have hcur2 : g.players[g.currentPlayerIndex]? = some cur := by
    simpa using hcur
  have hck : checkGameOver g = (true, blockedOutcome g) := by
    simp [checkGameOver, hcur2, hhand, hpass]
  rw [hck]
  have hfin : ∀ (c : Prop) [Decidable c] (a b : GameState),
      a.gamePhase = .finished → b.gamePhase = .finished →
      (if c then a else b).gamePhase = .finished := by
    intro c _ a b ha hb
    split
    · exact ha
    · exact hb
  refine ⟨rfl, ?_, ?_, ?_, ?_⟩
  · simp only [blockedOutcome]
    exact hfin _ _ _ rfl rfl
  · intro p hp1
    have h := blockedOutcome_decisive g p [] hp1 (Or.inl rfl) hids
    exact ⟨h.2.1, h.2.2⟩
  · intro p q rest hp1 hall
    have h := blockedOutcome_decisive g p (q :: rest) hp1 (Or.inr hall) hids
    exact ⟨h.2.1, h.2.2⟩
  · intro hspan
    have h := blockedOutcome_draw g hspan
    exact ⟨h.2.1, h.2.2⟩

/-- Blocked pre-state with the spec scenario: seat totals [10,10,3,7] on
teams [T1,T2,T1,T2], unique minimum at seat 2. -/
def c1WGame : GameState :=
  { players := [
      mkSeat 20 0 .team1 [{ id := 0, left := 4, right := 6 }],
      mkSeat 21 1 .team2 [{ id := 1, left := 5, right := 5 }],
      mkSeat 22 2 .team1 [{ id := 2, left := 1, right := 2 }],
      mkSeat 23 3 .team2 [{ id := 3, left := 3, right := 4 }]],
    board := [{ id := 4, left := 0, right := 0 }],
    boardLeftEnd := 0, boardRightEnd := 0,
    currentPlayerIndex := 0, gamePhase := .playing, winner := none,
    passCount := 4, scores := { team1 := 0, team2 := 0 },
    gameMode := .multiplayer, aiDifficulty := .medium, lastWinner := none }

/-- Witness for C1 amended on the spec scenario [10,10,3,7]: team1 wins
and gains 27. -/
theorem c1_blocked_termination_witness :
    (checkGameOver c1WGame).2.winner = some Winner.team1 ∧
    (checkGameOver c1WGame).2.scores.team1 = 27 := by
  have h := (c1_blocked_termination c1WGame
      (mkSeat 20 0 .team1 [{ id := 0, left := 4, right := 6 }])
      rfl (by decide) (by decide) (by decide)).2.2.1
    (mkSeat 22 2 .team1 [{ id := 2, left := 1, right := 2 }]) (by decide)
  refine ⟨h.1, ?_⟩
  have h2 : (checkGameOver c1WGame).2.scores.team1 =
      c1WGame.scores.team1 +
        ((c1WGame.players.map seatTotal).sum - blockedMinTotal c1WGame) := h.2.1
  rw [h2]
  decide
theorem ite_gameProj {α : Type} (c : Prop) [Decidable c] (a b : GameState)
    (f : GameState → α) (x : α) (ha : f a = x) (hb : f b = x) :
    f (if c then a else b) = x := by
  split
  · exact ha
  · exact hb

theorem checkGameOver_frame (g : GameState) :
    (checkGameOver g).2.passCount = g.passCount ∧
    (checkGameOver g).2.players = g.players ∧
    (checkGameOver g).2.board = g.board := by
  unfold checkGameOver
  cases hget : g.players.get? g.currentPlayerIndex with
  | none => exact ⟨rfl, rfl, rfl⟩
  | some cur =>
    simp only []
    by_cases h0 : cur.hand.length = 0
    · rw [if_pos h0]
      exact ⟨rfl, rfl, rfl⟩
    · rw [if_neg h0]
      by_cases h4 : 4 ≤ g.passCount
      · rw [if_pos h4]
        refine ⟨?_, ?_, ?_⟩ <;>
          · simp only [blockedOutcome]
            exact ite_gameProj _ _ _ _ _ rfl rfl
      · rw [if_neg h4]
        exact ⟨rfl, rfl, rfl⟩

theorem checkGameOver_blocked (g : GameState) (cur : Player)
    (hcur : g.players.get? g.currentPlayerIndex = some cur)
    (hhand : cur.hand ≠ [])
    (hpass : 4 ≤ g.passCount) :
    (checkGameOver g).1 = true ∧ (checkGameOver g).2.gamePhase = .finished := by
  have hcur2 : g.players[g.currentPlayerIndex]? = some cur := by
    simpa using hcur
  have hck : checkGameOver g = (true, blockedOutcome g) := by
    simp [checkGameOver, hcur2, hhand, hpass]
  rw [hck]
  refine ⟨rfl, ?_⟩
  simp only [blockedOutcome]
  exact ite_gameProj _ _ _ _ _ rfl rfl

/-- C8: during play, a pass by the current seat is rejected with
HasLegalMove (and mutates nothing) iff some hand tile is playable per the
legality oracle; a pass by any non-current identity is rejected with
NotYourTurn; a successful pass increments passCount by exactly one while
a successful placement resets it to 0; and a pass that brings passCount
to 4 terminates the round by blockage. -/
theorem c8_pass_contract (g : GameState) (sock : Nat) (player : Player)
    (hphase : g.gamePhase = .playing)
    (hget : g.players.get? g.currentPlayerIndex = some player) :
    ((g.players.findIdx? (fun p => p.id == sock) = none ∨
      (∃ i, g.players.findIdx? (fun p => p.id == sock) = some i ∧
        i ≠ g.currentPlayerIndex)) →
      passMove g sock = (g, some .notYourTurn)) ∧
    (g.players.findIdx? (fun p => p.id == sock) = some g.currentPlayerIndex →
      (((passMove g sock).2 = some GameErr.hasLegalMove ↔
        ∃ d ∈ player.hand, (canPlayDomino d g.boardLeftEnd g.boardRightEnd
          (g.board.length = 0)).canPlay = true) ∧
       ((passMove g sock).2 = some GameErr.hasLegalMove →
         (passMove g sock).1 = g))) ∧
    ((passMove g sock).2 = none →
      (passMove g sock).1.passCount = g.passCount + 1) ∧
    (∀ tid side, (playDomino g sock tid side).2 = none →
      (playDomino g sock tid side).1.passCount = 0) ∧
    ((passMove g sock).2 = none → g.passCount = 3 → player.hand ≠ [] →
      (passMove g sock).1.gamePhase = .finished ∧
      4 ≤ (passMove g sock).1.passCount) := by
  refine ⟨?_, ?_, ?_, ?_, ?_⟩
  · intro hcase
    rcases hcase with hnone | ⟨i, hi, hne⟩
    · simp [passMove, hnone]
    · simp [passMove, hi, hne]
  · intro hidx
    simp only [passMove, hidx, hget]
    rw [if_neg (by simp)]
    cases hhp : player.hand.any (fun d =>
        (canPlayDomino d g.boardLeftEnd g.boardRightEnd
          (decide (g.board.length = 0))).canPlay) with
    | true =>
      rw [if_pos rfl]
      refine ⟨⟨fun _ => List.any_eq_true.mp hhp, fun _ => rfl⟩, fun _ => rfl⟩
    | false =>
      rw [if_neg (by simp)]
      constructor
      · constructor
        · intro hcontra
          exfalso
          revert hcontra
          split
          · intro h
            cases h
          · intro h
            cases h
        · intro hex
          refine absurd (List.any_eq_true.mpr hex) ?_
          rw [hhp]
          exact Bool.false_ne_true
      · intro hcontra
        exfalso
        revert hcontra
        split
        · intro h
          cases h
        · intro h
          cases h
  · intro hsucc
    cases hidx : g.players.findIdx? (fun p => p.id == sock) with
    | none => simp [passMove, hidx] at hsucc
    | some i =>
      by_cases hne : i ≠ g.currentPlayerIndex
      · simp [passMove, hidx, hne] at hsucc
      · simp only [passMove, hidx] at hsucc ⊢
        rw [if_neg hne] at hsucc ⊢
        cases hgp : g.players.get? i with
        | none =>
          rw [hgp] at hsucc
          simp at hsucc
        | some pl =>
          rw [hgp] at hsucc
          simp only [] at hsucc ⊢
          cases hhp : pl.hand.any (fun d =>
              (canPlayDomino d g.boardLeftEnd g.boardRightEnd
                (decide (g.board.length = 0))).canPlay) with
          | true =>
            rw [hhp] at hsucc
            simp at hsucc
          | false =>
            rw [if_neg (by simp)]
            split
            · exact (checkGameOver_frame { g with passCount := g.passCount + 1 }).1
            · exact (checkGameOver_frame { g with passCount := g.passCount + 1 }).1
  · intro tid side hsucc
    cases hidx : g.players.findIdx? (fun p => p.id == sock) with
    | none => simp [playDomino, hidx] at hsucc
    | some i =>
      by_cases hne : i ≠ g.currentPlayerIndex
      · simp [playDomino, hidx, hne] at hsucc
      · simp only [playDomino, hidx] at hsucc ⊢
        rw [if_neg hne] at hsucc ⊢
        cases hgp : g.players.get? i with
        | none =>
          rw [hgp] at hsucc
          simp at hsucc
        | some pl =>
          rw [hgp] at hsucc
          simp only [] at hsucc ⊢
          cases hdi : pl.hand.findIdx? (fun d => d.id == tid) with
          | none =>
            rw [hdi] at hsucc
            simp at hsucc
          | some di =>
            rw [hdi] at hsucc
            simp only [] at hsucc ⊢
            cases hgd : pl.hand.get? di with
            | none =>
              rw [hgd] at hsucc
              simp at hsucc
            | some dom =>
              rw [hgd] at hsucc
              simp only [] at hsucc ⊢
              by_cases hcp : (canPlayDomino dom g.boardLeftEnd g.boardRightEnd
                  (decide (g.board.length = 0))).canPlay = false
              · rw [if_pos hcp] at hsucc
                simp at hsucc
              · rw [if_neg hcp] at hsucc ⊢
                by_cases hsd : ¬ (g.board.length = 0) ∧
                    side ∉ (canPlayDomino dom g.boardLeftEnd g.boardRightEnd
                      (decide (g.board.length = 0))).sides
                · rw [if_pos hsd] at hsucc
                  simp at hsucc
                · rw [if_neg hsd] at hsucc ⊢
                  split
                  · exact (checkGameOver_frame _).1
                  · exact (checkGameOver_frame _).1
  · intro hsucc h3 hhand
    cases hidx : g.players.findIdx? (fun p => p.id == sock) with
    | none => simp [passMove, hidx] at hsucc
    | some i =>
      by_cases hne : i ≠ g.currentPlayerIndex
      · simp [passMove, hidx, hne] at hsucc
      · simp only [passMove, hidx] at hsucc ⊢
        rw [if_neg hne] at hsucc ⊢
        cases hgp : g.players.get? i with
        | none =>
          rw [hgp] at hsucc
          simp at hsucc
        | some pl =>
          rw [hgp] at hsucc
          simp only [] at hsucc ⊢
          cases hhp : pl.hand.any (fun d =>
              (canPlayDomino d g.boardLeftEnd g.boardRightEnd
                (decide (g.board.length = 0))).canPlay) with
          | true =>
            rw [hhp] at hsucc
            simp at hsucc
          | false =>
            rw [if_neg (by simp)]
            have hblocked := checkGameOver_blocked
              { g with passCount := g.passCount + 1 } player hget hhand
              (by simp [h3])
            rw [if_pos hblocked.1]
            refine ⟨hblocked.2, ?_⟩
            have hfr := (checkGameOver_frame { g with passCount := g.passCount + 1 }).1
            rw [hfr]
            simp [h3]

/-- Blocked-pass scenario for the C8 witness: seat 0 is current, holds an
unplayable tile against open ends (6,6), and passCount is already 3. -/
def c8Game : GameState :=
  { players := [
      mkSeat 30 0 .team1 [{ id := 0, left := 1, right := 2 }],
      mkSeat 31 1 .team2 [{ id := 1, left := 1, right := 3 }],
      mkSeat 32 2 .team1 [{ id := 2, left := 0, right := 3 }],
      mkSeat 33 3 .team2 [{ id := 3, left := 3, right := 4 }]],
    board := [{ id := 9, left := 6, right := 6 }],
    boardLeftEnd := 6, boardRightEnd := 6,
    currentPlayerIndex := 0, gamePhase := .playing, winner := none,
    passCount := 3, scores := { team1 := 0, team2 := 0 },
    gameMode := .multiplayer, aiDifficulty := .medium, lastWinner := none }

/-- Witness for C8: a stranger is rejected with NotYourTurn, and the
fourth consecutive pass by the blocked current seat finishes the round. -/
theorem c8_pass_contract_witness :
    passMove c8Game 99 = (c8Game, some GameErr.notYourTurn) ∧
    (passMove c8Game 30).1.gamePhase = .finished ∧
    4 ≤ (passMove c8Game 30).1.passCount := by
  have h99 := c8_pass_contract c8Game 99
    (mkSeat 30 0 .team1 [{ id := 0, left := 1, right := 2 }]) rfl rfl
  have h30 := c8_pass_contract c8Game 30
    (mkSeat 30 0 .team1 [{ id := 0, left := 1, right := 2 }]) rfl rfl
  refine ⟨h99.1 (Or.inl (by decide)), ?_, ?_⟩
  · exact (h30.2.2.2.2 (by decide) rfl (by decide)).1
  · exact (h30.2.2.2.2 (by decide) rfl (by decide)).2
theorem team_filter_length (l : List Player) (ta tb : Team) (hne : ta ≠ tb) :
    (l.filter (fun p => p.team == ta)).length +
      (l.filter (fun p => p.team == tb)).length = l.length := by
  induction l with
  | nil => rfl
  | cons p t ih =>
    have hone : (p.team == ta) = true ∧ (p.team == tb) = false ∨
        (p.team == ta) = false ∧ (p.team == tb) = true := by
      cases hp : p.team <;> cases ta <;> cases tb <;> simp_all
    rcases hone with ⟨h1, h2⟩ | ⟨h1, h2⟩ <;>
      simp [List.filter_cons, h1, h2, ← ih] <;> omega

/-- C4: whenever one of the seven intent handlers rejects an intent with
an error (delivered to the caller alone, never broadcast), the room state
it returns is exactly the state it received — rejection never mutates. -/
theorem c4_rejections_pure (g : GameState) (hcap : g.players.length ≤ 4) :
    (∀ sock nameCode team e, (joinGame (some g) sock nameCode team).2 = some e →
        (joinGame (some g) sock nameCode team).1 = g) ∧
    (∀ sock nameCode team mode diff fids w e,
        (createAIGame (some g) sock nameCode team mode diff fids w).2 = some e →
        (createAIGame (some g) sock nameCode team mode diff fids w).1 = some g) ∧
    (∀ deck e, (startGame g deck).2 = some e → (startGame g deck).1 = g) ∧
    (∀ sock tid side e, (playDomino g sock tid side).2 = some e →
        (playDomino g sock tid side).1 = g) ∧
    (∀ sock e, (passMove g sock).2 = some e → (passMove g sock).1 = g) ∧
    (∀ ta da fid fn w e, (addAIPlayer g ta da fid fn w).2 = some e →
        (addAIPlayer g ta da fid fn w).1 = g) ∧
    (∀ da ff fb w e, (autoFillAI g da ff fb w).2 = some e →
        (autoFillAI g da ff fb w).1 = g) := by
  refine ⟨?_, ?_, ?_, ?_, ?_, ?_, ?_⟩
  · intro sock nameCode team e h
    simp only [joinGame] at h ⊢
    by_cases h1 : 2 ≤ (g.players.filter (fun p => p.team == team)).length
    · rw [if_pos h1]
    · rw [if_neg h1] at h ⊢
      by_cases h2 : 4 ≤ g.players.length
      · rw [if_pos h2]
      · rw [if_neg h2] at h ⊢
        by_cases h3 : g.gamePhase ≠ .waiting
        · rw [if_pos h3]
        · rw [if_neg h3] at h
          simp at h
  · intro sock nameCode team mode diff fids w e h
    rfl
  · intro deck e h
    unfold startGame at h ⊢
    by_cases h1 : g.players.length ≠ 4
    · rw [if_pos h1]
    · rw [if_neg h1] at h ⊢
      by_cases h2 : g.gamePhase = .finished ∨ g.gamePhase = .waiting
      · rw [if_pos h2] at h
        simp at h
      · rw [if_neg h2]
  · intro sock tid side e h
    cases hidx : g.players.findIdx? (fun p => p.id == sock) with
    | none => simp [playDomino, hidx]
    | some i =>
      by_cases hne : i ≠ g.currentPlayerIndex
      · simp [playDomino, hidx, hne]
      · simp only [playDomino, hidx] at h ⊢
        rw [if_neg hne] at h ⊢
        cases hgp : g.players.get? i with
        | none => rfl
        | some pl =>
          rw [hgp] at h
          simp only [] at h ⊢
          cases hdi : pl.hand.findIdx? (fun d => d.id == tid) with
          | none => rfl
          | some di =>
            rw [hdi] at h
            simp only [] at h ⊢
            cases hgd : pl.hand.get? di with
            | none => rfl
            | some dom =>
              rw [hgd] at h
              simp only [] at h ⊢
              by_cases hcp : (canPlayDomino dom g.boardLeftEnd g.boardRightEnd
                  (decide (g.board.length = 0))).canPlay = false
              · rw [if_pos hcp]
              · rw [if_neg hcp] at h ⊢
                by_cases hsd : ¬ (g.board.length = 0) ∧
                    side ∉ (canPlayDomino dom g.boardLeftEnd g.boardRightEnd
                      (decide (g.board.length = 0))).sides
                · rw [if_pos hsd]
                · rw [if_neg hsd] at h
                  exfalso
                  split at h
                  · simp at h
                  · simp at h
  · intro sock e h
    cases hidx : g.players.findIdx? (fun p => p.id == sock) with
    | none => simp [passMove, hidx]
    | some i =>
      by_cases hne : i ≠ g.currentPlayerIndex
      · simp [passMove, hidx, hne]
      · simp only [passMove, hidx] at h ⊢
        rw [if_neg hne] at h ⊢
        cases hgp : g.players.get? i with
        | none => rfl
        | some pl =>
          rw [hgp] at h
          simp only [] at h ⊢
          cases hhp : pl.hand.any (fun d =>
              (canPlayDomino d g.boardLeftEnd g.boardRightEnd
                (decide (g.board.length = 0))).canPlay) with
          | true => rw [if_pos rfl]
          | false =>
            rw [hhp] at h
            rw [if_neg (by simp)] at h
            exfalso
            split at h
            · simp at h
            · simp at h
  · intro ta da fid fn w e h
    simp only [addAIPlayer] at h ⊢
    by_cases hw : g.gamePhase = .waiting
    · rw [if_pos hw] at h ⊢
      simp only [] at h ⊢
      rw [if_neg (show ¬ (g.gamePhase ≠ Phase.waiting) from by simp [hw])] at h ⊢
      by_cases hlen : 4 ≤ (g.players.filter (fun p => p.isConnected || p.isAI)).length
      · rw [if_pos hlen]
        have hle := List.length_filter_le (fun p => p.isConnected || p.isAI) g.players
        have hfeq : g.players.filter (fun p => p.isConnected || p.isAI) = g.players :=
          List.filter_eq_self.mpr (List.filter_length_eq_length.mp (by omega))
        simp only []
        rw [hfeq]
      · rw [if_neg hlen] at h ⊢
        have hsmall : (g.players.filter (fun p => p.isConnected || p.isAI)).length < 4 := by
          omega
        have key : ∀ (T : Team),
            (if 2 ≤ ((g.players.filter (fun p => p.isConnected || p.isAI)).filter (fun p => p.team == T)).length then
               if 2 ≤ ((g.players.filter (fun p => p.isConnected || p.isAI)).filter (fun p => p.team == (if T = Team.team1 then Team.team2 else Team.team1))).length then
                 (({ g with players := g.players.filter (fun p => p.isConnected || p.isAI) } : GameState), some GameErr.bothTeamsFull)
               else addAIPlayerFinish ({ g with players := g.players.filter (fun p => p.isConnected || p.isAI) } : GameState) (if T = Team.team1 then Team.team2 else Team.team1) da fid fn w
             else addAIPlayerFinish ({ g with players := g.players.filter (fun p => p.isConnected || p.isAI) } : GameState) T da fid fn w).2 = some e →
            False := by
          intro T hT
          by_cases htc : 2 ≤ ((g.players.filter (fun p => p.isConnected || p.isAI)).filter (fun p => p.team == T)).length
          · rw [if_pos htc] at hT
            by_cases hoc : 2 ≤ ((g.players.filter (fun p => p.isConnected || p.isAI)).filter (fun p => p.team == (if T = Team.team1 then Team.team2 else Team.team1))).length
            · have hsum := team_filter_length (g.players.filter (fun p => p.isConnected || p.isAI)) T (if T = Team.team1 then Team.team2 else Team.team1) (by cases T <;> simp)
              omega
            · rw [if_neg hoc] at hT
              simp [addAIPlayerFinish] at hT
          · rw [if_neg htc] at hT
            simp [addAIPlayerFinish] at hT
        exfalso
        cases ta with
        | some t =>
          simp only [] at h
          exact key t h
        | none =>
          simp only [] at h
          by_cases hbal : ((g.players.filter (fun p => p.isConnected || p.isAI)).filter (fun p => p.team == Team.team1)).length ≤ ((g.players.filter (fun p => p.isConnected || p.isAI)).filter (fun p => p.team == Team.team2)).length
          · rw [if_pos hbal] at h
            exact key Team.team1 h
          · rw [if_neg hbal] at h
            exact key Team.team2 h
    · rw [if_neg hw] at h ⊢
      rw [if_pos (show g.gamePhase ≠ Phase.waiting from hw)] at h ⊢
  · intro da ff fb w e h
    unfold autoFillAI at h ⊢
    by_cases h1 : g.gamePhase ≠ .waiting
    · rw [if_pos h1]
    · rw [if_neg h1] at h
      simp at h

/-- Witness for C4: a rejected pass from a stranger and a rejected start
on an in-progress room both leave the room state untouched. -/
theorem c4_rejections_pure_witness :
    (passMove c8Game 99).1 = c8Game ∧
    (startGame c8Game generateDominoes).1 = c8Game :=
  ⟨(c4_rejections_pure c8Game (by decide)).2.2.2.2.1 99 GameErr.notYourTurn (by decide),
   (c4_rejections_pure c8Game (by decide)).2.2.1 generateDominoes GameErr.alreadyStarted (by decide)⟩
/-- Canonical view of a tile: identity plus unordered pip pair (flipping a
tile for placement preserves it). -/
def canonTile (d : Domino) : Nat × Int × Int :=
  (d.id, min d.left d.right, max d.left d.right)

/-- Multiset of all tiles held in hands or placed on the board. -/
def tileBag (g : GameState) : Multiset (Nat × Int × Int) :=
  ((((g.players.map (fun p => p.hand)).flatten ++ g.board).map canonTile : List _) :
    Multiset (Nat × Int × Int))

/-- Canonical multiset of the full 28-tile deck. -/
def fullDeckBag : Multiset (Nat × Int × Int) :=
  ((generateDominoes.map canonTile : List _) : Multiset (Nat × Int × Int))

/-- State mutation of processAITurn once its timer fires (server.ts lines
824-899): guard, apply the selected move (or count a pass), run
checkGameOver, advance the turn pointer. Move selection itself never
mutates the room, so the chosen move is a parameter; a findIndex miss on
the splice cannot occur for moves selected from the hand and is modelled
as removing nothing. -/
def processAIApply (g : GameState) (move : Option ChosenMove) : GameState :=
  match g.players.get? g.currentPlayerIndex with
  | none => g
  | some currentPlayer =>
    if ¬ currentPlayer.isAI ∨ g.gamePhase ≠ .playing then g
    else
      let g1 :=
        match move with
        | some mv =>
          let newHand :=
            match currentPlayer.hand.findIdx? (fun d => d.id == mv.domino.id) with
            | some dominoIndex => currentPlayer.hand.eraseIdx dominoIndex
            | none => currentPlayer.hand
          let placed := aiPlaceBlock g.board g.boardLeftEnd g.boardRightEnd
            mv.domino mv.side
          { g with
              players := g.players.set g.currentPlayerIndex
                { currentPlayer with hand := newHand },
              board := placed.1,
              boardLeftEnd := placed.2.1,
              boardRightEnd := placed.2.2,
              passCount := 0 }
        | none => { g with passCount := g.passCount + 1 }
      let r := checkGameOver g1
      if r.1 then r.2
      else { r.2 with currentPlayerIndex := getNextPlayerIndex r.2 }

/-- One engine transition during play: a successful human placement, a
successful human pass, or a fired AI turn whose selected move comes from
the acting hand (as every aiSelectMove/chooseMove result does). -/
inductive EngineStep : GameState → GameState → Prop where
  | play (g : GameState) (sock tid : Nat) (side : Side)
      (hok : (playDomino g sock tid side).2 = none) :
      EngineStep g (playDomino g sock tid side).1
  | pass (g : GameState) (sock : Nat)
      (hok : (passMove g sock).2 = none) :
      EngineStep g (passMove g sock).1
  | ai (g : GameState) (move : Option ChosenMove)
      (hin : ∀ mv, move = some mv →
        ∀ cp, g.players.get? g.currentPlayerIndex = some cp →
        ∃ j, cp.hand.findIdx? (fun d => d.id == mv.domino.id) = some j ∧
          cp.hand.get? j = some mv.domino) :
      EngineStep g (processAIApply g move)

theorem canonTile_flip (d : Domino) :
    canonTile { d with left := d.right, right := d.left } = canonTile d := by
  simp [canonTile, min_comm, max_comm]

theorem perm_cons_eraseIdx (l : List Domino) (n : Nat) (a : Domino)
    (h : l.get? n = some a) : l.Perm (a :: l.eraseIdx n) := by
  induction l generalizing n with
  | nil => simp at h
  | cons b t ih =>
    cases n with
    | zero =>
      simp at h
      subst h
      simp [List.eraseIdx]
    | succ n =>
      simp only [List.get?] at h
      have hp := ih n h
      have : (b :: t).eraseIdx (n + 1) = b :: t.eraseIdx n := rfl
      rw [this]
      exact (hp.cons b).trans (List.Perm.swap a b (t.eraseIdx n))
theorem flatten_set_perm (players : List Player) (i : Nat) (pl : Player)
    (j : Nat) (dom : Domino)
    (hget : players.get? i = some pl)
    (hdom : pl.hand.get? j = some dom) :
    ((players.map (fun p => p.hand)).flatten).Perm
      (dom :: (((players.set i { pl with hand := pl.hand.eraseIdx j }).map
        (fun p => p.hand)).flatten)) := by
  induction players generalizing i with
  | nil => simp at hget
  | cons q t ih =>
    cases i with
    | zero =>
      simp at hget
      subst hget
      simp only [List.set, List.map_cons, List.flatten_cons]
      have hperm := perm_cons_eraseIdx q.hand j dom hdom
      exact hperm.append_right _
    | succ i =>
      simp only [List.get?] at hget
      have hp := ih i hget
      simp only [List.set, List.map_cons, List.flatten_cons]
      exact ((hp.append_left q.hand)).trans List.perm_middle
theorem humanPlaceBlock_bag (board : List Domino) (lE rE : Int)
    (dom : Domino) (side : Side) :
    (((humanPlaceBlock board lE rE dom side).1.map canonTile)).Perm
      (canonTile dom :: board.map canonTile) := by
  unfold humanPlaceBlock
  by_cases h0 : board.length = 0
  · rw [if_pos h0]
    simp only [List.map_append, List.map_cons, List.map_nil]
    exact List.perm_append_singleton (canonTile dom) (board.map canonTile)
  · rw [if_neg h0]
    cases side with
    | left =>
      by_cases hm : dom.right = lE
      · rw [if_pos hm]
        exact List.Perm.refl _
      · rw [if_neg hm]
        simp only [List.map_cons, canonTile_flip]
        exact List.Perm.refl _
    | right =>
      by_cases hm : dom.left = rE
      · rw [if_pos hm]
        simp only [List.map_append, List.map_cons, List.map_nil]
        exact List.perm_append_singleton (canonTile dom) (board.map canonTile)
      · rw [if_neg hm]
        simp only [List.map_append, List.map_cons, List.map_nil, canonTile_flip]
        exact List.perm_append_singleton (canonTile dom) (board.map canonTile)

theorem aiPlaceBlock_eq_human : aiPlaceBlock = humanPlaceBlock := rfl

theorem tileBag_congr (g g2 : GameState)
    (hp : g2.players = g.players) (hb : g2.board = g.board) :
    tileBag g2 = tileBag g := by
  simp [tileBag, hp, hb]
theorem tileBag_place (g g2 : GameState) (idx : Nat) (pl : Player) (j : Nat)
    (dom : Domino) (side : Side)
    (hgp : g.players.get? idx = some pl)
    (hdom : pl.hand.get? j = some dom)
    (hp : g2.players = g.players.set idx
      { pl with hand := pl.hand.eraseIdx j })
    (hb : g2.board = (humanPlaceBlock g.board g.boardLeftEnd g.boardRightEnd
      dom side).1) :
    tileBag g2 = tileBag g := by
  have hflat := (flatten_set_perm g.players idx pl j dom
    hgp hdom).map canonTile
  have hboard := humanPlaceBlock_bag g.board g.boardLeftEnd g.boardRightEnd
    dom side
  unfold tileBag
  rw [hp, hb]
  refine Multiset.coe_eq_coe.mpr ?_
  rw [List.map_append, List.map_append]
  exact ((hboard.append_left _).trans List.perm_middle).trans
    (hflat.symm.append_right _)
theorem engineStep_tileBag (ga gb : GameState) (hs : EngineStep ga gb) :
    tileBag gb = tileBag ga := by
  cases hs with
  | play sock tid side hok =>
    cases hidx : ga.players.findIdx? (fun p => p.id == sock) with
    | none => simp [playDomino, hidx] at hok
    | some i =>
      by_cases hne : i ≠ ga.currentPlayerIndex
      · simp [playDomino, hidx, hne] at hok
      · simp only [playDomino, hidx] at hok ⊢
        rw [if_neg hne] at hok ⊢
        cases hgp : ga.players.get? i with
        | none =>
          rw [hgp] at hok
        | some pl =>
          rw [hgp] at hok
          simp only [] at hok ⊢
          cases hdi : pl.hand.findIdx? (fun d => d.id == tid) with
          | none =>
            rw [hdi] at hok
          | some di =>
            rw [hdi] at hok
            simp only [] at hok ⊢
            cases hgd : pl.hand.get? di with
            | none =>
              rw [hgd] at hok
            | some dom =>
              rw [hgd] at hok
              simp only [] at hok ⊢
              by_cases hcp : (canPlayDomino dom ga.boardLeftEnd ga.boardRightEnd
                  (decide (ga.board.length = 0))).canPlay = false
              · rw [if_pos hcp] at hok
                simp at hok
              · rw [if_neg hcp] at hok ⊢
                by_cases hsd : ¬ (ga.board.length = 0) ∧
                    side ∉ (canPlayDomino dom ga.boardLeftEnd ga.boardRightEnd
                      (decide (ga.board.length = 0))).sides
                · rw [if_pos hsd] at hok
                  simp at hok
                · rw [if_neg hsd] at hok ⊢
                  split
                  · exact (tileBag_congr _ _ (checkGameOver_frame _).2.1
                      (checkGameOver_frame _).2.2).trans
                      (tileBag_place ga _ i pl di dom side hgp hgd rfl rfl)
                  · exact (tileBag_congr _ _ (checkGameOver_frame _).2.1
                      (checkGameOver_frame _).2.2).trans
                      (tileBag_place ga _ i pl di dom side hgp hgd rfl rfl)
  | pass sock hok =>
    cases hidx : ga.players.findIdx? (fun p => p.id == sock) with
    | none => simp [passMove, hidx] at hok
    | some i =>
      by_cases hne : i ≠ ga.currentPlayerIndex
      · simp [passMove, hidx, hne] at hok
      · simp only [passMove, hidx] at hok ⊢
        rw [if_neg hne] at hok ⊢
        cases hgp : ga.players.get? i with
        | none =>
          rw [hgp] at hok
        | some pl =>
          rw [hgp] at hok
          simp only [] at hok ⊢
          cases hhp : pl.hand.any (fun d =>
              (canPlayDomino d ga.boardLeftEnd ga.boardRightEnd
                (decide (ga.board.length = 0))).canPlay) with
          | true =>
            rw [hhp] at hok
            simp at hok
          | false =>
            rw [if_neg (by simp)]
            split
            · exact tileBag_congr _ _ (checkGameOver_frame _).2.1
                (checkGameOver_frame _).2.2
            · exact tileBag_congr _ _ (checkGameOver_frame _).2.1
                (checkGameOver_frame _).2.2
  | ai move hin =>
    unfold processAIApply
    cases hgp : ga.players.get? ga.currentPlayerIndex with
    | none => rfl
    | some cp =>
      simp only []
      by_cases hguard : ¬ cp.isAI = true ∨ ga.gamePhase ≠ Phase.playing
      · rw [if_pos hguard]
      · rw [if_neg hguard]
        cases move with
        | none =>
          simp only []
          split
          · exact tileBag_congr _ _ (checkGameOver_frame _).2.1
              (checkGameOver_frame _).2.2
          · exact tileBag_congr _ _ (checkGameOver_frame _).2.1
              (checkGameOver_frame _).2.2
        | some mv =>
          obtain ⟨j, hfd, hgd⟩ := hin mv rfl cp hgp
          simp only []
          rw [hfd]
          simp only []
          split
          · exact (tileBag_congr _ _ (checkGameOver_frame _).2.1
              (checkGameOver_frame _).2.2).trans
              (tileBag_place ga _ ga.currentPlayerIndex cp j mv.domino
                mv.side hgp hgd rfl rfl)
          · exact (tileBag_congr _ _ (checkGameOver_frame _).2.1
              (checkGameOver_frame _).2.2).trans
              (tileBag_place ga _ ga.currentPlayerIndex cp j mv.domino
                mv.side hgp hgd rfl rfl)
theorem dealDominoes_tileBag (g : GameState) (deck : List Domino)
    (hlen : g.players.length = 4) (hboard : g.board = [])
    (hperm : deck.Perm generateDominoes) :
    tileBag (dealDominoes g deck) = fullDeckBag := by
  have hdlen : deck.length = 28 := by rw [hperm.length_eq]; rfl
  have h1 : (dealDominoes g deck).players.map (fun p => p.hand)
      = (List.range 4).map (fun i => (deck.drop (i * 7)).take 7) := by
    show (g.players.enum.map (fun p =>
      ({ p.2 with hand := (deck.drop (p.1 * 7)).take 7 } : Player))).map
        (fun p => p.hand) = _
    rw [List.map_map]
    rw [show ((fun p => p.hand) ∘ (fun p : Nat × Player =>
        ({ p.2 with hand := (deck.drop (p.1 * 7)).take 7 } : Player)))
      = (fun i => (deck.drop (i * 7)).take 7) ∘ Prod.fst from rfl]
    rw [← List.map_map, List.enum_map_fst, hlen]
  have hflat : (((List.range 4).map
      (fun i => (deck.drop (i * 7)).take 7)).flatten) = deck := by
    show deck.take 7 ++ ((deck.drop 7).take 7 ++ ((deck.drop 14).take 7 ++
      ((deck.drop 21).take 7 ++ []))) = deck
    rw [List.append_nil]
    have e21 : (deck.drop 21).take 7 = deck.drop 21 := by
      apply List.take_of_length_le
      rw [List.length_drop, hdlen]
    rw [e21]
    rw [show deck.drop 21 = (deck.drop 14).drop 7 from by rw [List.drop_drop]]
    rw [List.take_append_drop]
    rw [show deck.drop 14 = (deck.drop 7).drop 7 from by rw [List.drop_drop]]
    rw [List.take_append_drop]
    rw [List.take_append_drop]
  have hb2 : (dealDominoes g deck).board = g.board := rfl
  unfold tileBag fullDeckBag
  rw [h1, hflat, hb2, hboard, List.append_nil]
  exact Multiset.coe_eq_coe.mpr (hperm.map canonTile)
/-- Fresh 4-seat room for the C6 witness: empty hands, empty board. -/
def c6WGame : GameState :=
  { players := [mkSeat 40 0 .team1 [], mkSeat 41 1 .team2 [],
      mkSeat 42 2 .team1 [], mkSeat 43 3 .team2 []],
    board := [], boardLeftEnd := -1, boardRightEnd := -1,
    currentPlayerIndex := 0, gamePhase := .playing, winner := none,
    passCount := 0, scores := { team1 := 0, team2 := 0 },
    gameMode := .multiplayer, aiDifficulty := .medium, lastWinner := none }

/-- C6: deck conservation. Dealing any permutation of the 28-tile deck to
a 4-seat room with an empty board makes the bag of tiles across the four
hands and the board exactly the canonical full deck; every engine step
(successful human placement by the playDomino handler, successful human
pass, or AI turn playing a tile from its hand) preserves that bag; hence
in every state reachable from the deal by engine steps no tile is
duplicated or lost. -/
theorem c6_deck_conservation (g : GameState) (deck : List Domino)
    (hlen : g.players.length = 4) (hboard : g.board = [])
    (hperm : deck.Perm generateDominoes) :
    tileBag (dealDominoes g deck) = fullDeckBag ∧
    (∀ ga gb : GameState, EngineStep ga gb → tileBag gb = tileBag ga) ∧
    (∀ gr : GameState,
      Relation.ReflTransGen EngineStep (dealDominoes g deck) gr →
      tileBag gr = fullDeckBag) := by
  refine ⟨dealDominoes_tileBag g deck hlen hboard hperm,
    fun ga gb hs => engineStep_tileBag ga gb hs, fun gr hr => ?_⟩
  induction hr with
  | refl => exact dealDominoes_tileBag g deck hlen hboard hperm
  | tail hab hbc ih => exact (engineStep_tileBag _ _ hbc).trans ih

/-- Witness for C6 at a concrete fresh room and the identity shuffle. -/
theorem c6_deck_conservation_witness :
    tileBag (dealDominoes c6WGame generateDominoes) = fullDeckBag :=
  (c6_deck_conservation c6WGame generateDominoes (by decide) rfl
    (List.Perm.refl _)).1
/-- A seat holds the double of pip value v (predicate of the inner scan of
findStartingPlayer). -/
def hasDbl (v : Int) (p : Player) : Bool :=
  p.hand.any (fun d => d.left == v && d.right == v)

theorem fsAux_cons (players : List Player) (v : Int) (vs : List Int) :
    findStartingPlayerAux players (v :: vs) =
      match players.findIdx? (hasDbl v) with
      | some i => i
      | none => findStartingPlayerAux players vs := rfl

theorem fsAux_spec (players : List Player) (vs : List Int) :
    (findStartingPlayerAux players vs = 0 ∧
      ∀ v ∈ vs, players.findIdx? (hasDbl v) = none) ∨
    (∃ pre v post, vs = pre ++ v :: post ∧
      (∀ w ∈ pre, players.findIdx? (hasDbl w) = none) ∧
      players.findIdx? (hasDbl v) = some (findStartingPlayerAux players vs)) := by
  induction vs with
  | nil => exact Or.inl ⟨rfl, by simp⟩
  | cons v vs ih =>
    cases hfi : players.findIdx? (hasDbl v) with
    | some i =>
      refine Or.inr ⟨[], v, vs, rfl, by simp, ?_⟩
      rw [fsAux_cons, hfi]
    | none =>
      rcases ih with ⟨h0, hall⟩ | ⟨pre, u, post, hvs, hpre, hu⟩
      · refine Or.inl ⟨?_, ?_⟩
        · rw [fsAux_cons, hfi]
          exact h0
        · intro w hw
          rcases List.mem_cons.mp hw with rfl | hw2
          · exact hfi
          · exact hall w hw2
      · refine Or.inr ⟨v :: pre, u, post, by rw [hvs]; rfl, ?_, ?_⟩
        · intro w hw
          rcases List.mem_cons.mp hw with rfl | hw2
          · exact hfi
          · exact hpre w hw2
        · rw [fsAux_cons, hfi]
          exact hu

/-- The opening-seat discipline the specification describes for a fresh
round: either some pip value v has its double in play, the opening seat is
the first seat in order holding that double, and no strictly higher double
is held anywhere; or no seat holds any double and the opener defaults to
seat 0. -/
def opensWithHighestDouble (players : List Player) (idx : Nat) : Prop :=
  (∃ v : Int, 0 ≤ v ∧ v ≤ 6 ∧
    players.findIdx? (hasDbl v) = some idx ∧
    ∀ w : Int, v < w → w ≤ 6 → players.findIdx? (hasDbl w) = none) ∨
  (idx = 0 ∧ ∀ v : Int, 0 ≤ v → v ≤ 6 →
    players.findIdx? (hasDbl v) = none)

theorem findStartingPlayer_opens (g : GameState) :
    opensWithHighestDouble g.players (findStartingPlayer g) := by
  have hspec := fsAux_spec g.players [6, 5, 4, 3, 2, 1, 0]
  rcases hspec with ⟨h0, hall⟩ | ⟨pre, u, post, hvs, hpre, hu⟩
  · right
    refine ⟨h0, ?_⟩
    intro v hv0 hv6
    apply hall
    interval_cases v <;> simp
  · left
    have hmem : u ∈ ([6, 5, 4, 3, 2, 1, 0] : List Int) := by
      rw [hvs]
      exact List.mem_append.mpr (Or.inr (List.mem_cons_self u post))
    have hb : 0 ≤ u ∧ u ≤ 6 := by
      simp at hmem
      rcases hmem with rfl | rfl | rfl | rfl | rfl | rfl | rfl <;> norm_num
    refine ⟨u, hb.1, hb.2, hu, ?_⟩
    intro w hw1 hw2
    have hwmem : w ∈ ([6, 5, 4, 3, 2, 1, 0] : List Int) := by
      have h0w : (0 : Int) ≤ w := le_trans hb.1 (le_of_lt hw1)
      interval_cases w <;> simp
    rw [hvs] at hwmem
    rcases List.mem_append.mp hwmem with hwpre | hwpost
    · exact hpre w hwpre
    · exfalso
      have hsorted : ([6, 5, 4, 3, 2, 1, 0] : List Int).Pairwise (· > ·) := by
        decide
      rw [hvs] at hsorted
      have h2 := (List.pairwise_append.mp hsorted).2.1
      rcases List.mem_cons.mp hwpost with rfl | hwp
      · exact lt_irrefl w hw1
      · have h3 := (List.pairwise_cons.mp h2).1 w hwp
        omega
theorem deal_players_get? (G : GameState) (deck : List Domino) (i : Nat) :
    (dealDominoes G deck).players.get? i
      = (G.players.get? i).map
        (fun q => { q with hand := (deck.drop (i * 7)).take 7 }) := by
  show ((G.players.enum.map (fun p =>
      ({ p.2 with hand := (deck.drop (p.1 * 7)).take 7 } : Player))).get? i) = _
  rw [List.get?_map, List.enum_get?]
  cases G.players.get? i <;> rfl

theorem reset_players_get? (g : GameState) (i : Nat) :
    (resetRound g).players.get? i
      = (g.players.get? i).map (fun q => { q with hand := [] }) := by
  show ((g.players.map (fun p => ({ p with hand := [] } : Player))).get? i) = _
  rw [List.get?_map]

theorem findIdx?_enumFrom (p : Player → Bool) (ps : List Player) :
    ∀ n k, (List.enumFrom n ps).findIdx? (fun q => p q.2) k
      = ps.findIdx? p k := by
  induction ps with
  | nil => intro n k; rfl
  | cons a t ih =>
    intro n k
    show ((n, a) :: List.enumFrom (n + 1) t).findIdx? (fun q => p q.2) k
      = (a :: t).findIdx? p k
    rw [List.findIdx?_cons, List.findIdx?_cons]
    by_cases h : p a
    · simp [h]
    · simp [h, ih]

theorem deal_findIdx?_team (G : GameState) (deck : List Domino) (t : Team) :
    (dealDominoes G deck).players.findIdx? (fun p => p.team == t)
      = G.players.findIdx? (fun p => p.team == t) := by
  show (G.players.enum.map (fun p =>
      ({ p.2 with hand := (deck.drop (p.1 * 7)).take 7 } : Player))).findIdx?
      (fun p => p.team == t) = _
  rw [List.findIdx?_map]
  exact findIdx?_enumFrom (fun p => p.team == t) G.players 0 0

theorem reset_findIdx?_team (g : GameState) (t : Team) :
    (resetRound g).players.findIdx? (fun p => p.team == t)
      = g.players.findIdx? (fun p => p.team == t) := by
  show (g.players.map (fun p => ({ p with hand := [] } : Player))).findIdx?
      (fun p => p.team == t) = _
  rw [List.findIdx?_map]
  rfl
/-- C7: startGame on a full 4-seat room with a shuffled deck. It succeeds,
ends in the playing phase with cumulative scores untouched; a finished
round is first reset (empty board, pass counter and winner cleared); each
of the 4 seats receives exactly the 7-tile slice of the deck at its index
while keeping its team; if the previous round ended with a decisive
winning team the opener is the first seat of that team in seating order,
and otherwise the opener follows the highest-double scan with fallback
seat 0. -/
theorem c7_startGame_contract (g : GameState) (deck : List Domino)
    (hlen : g.players.length = 4)
    (hperm : deck.Perm generateDominoes)
    (hphase : g.gamePhase = .finished ∨ g.gamePhase = .waiting) :
    (startGame g deck).2 = none ∧
    (startGame g deck).1.gamePhase = .playing ∧
    (startGame g deck).1.scores = g.scores ∧
    (g.gamePhase = .finished →
      (startGame g deck).1.board = [] ∧
      (startGame g deck).1.passCount = 0 ∧
      (startGame g deck).1.winner = none) ∧
    (startGame g deck).1.players.length = 4 ∧
    (∀ i, i < 4 → ∃ p q, g.players.get? i = some q ∧
      (startGame g deck).1.players.get? i = some p ∧
      p.hand = (deck.drop (i * 7)).take 7 ∧ p.hand.length = 7 ∧
      p.team = q.team) ∧
    (∀ t : Team,
      (if g.gamePhase = .finished then g.winner else g.lastWinner)
        = some (Team.toWinner t) →
      ∀ j, g.players.findIdx? (fun p => p.team == t) = some j →
      (startGame g deck).1.currentPlayerIndex = j) ∧
    (((if g.gamePhase = .finished then g.winner else g.lastWinner) = none ∨
      (if g.gamePhase = .finished then g.winner else g.lastWinner)
        = some .draw) →
      opensWithHighestDouble (startGame g deck).1.players
        (startGame g deck).1.currentPlayerIndex) := by
  have hdlen : deck.length = 28 := by rw [hperm.length_eq]; rfl
  have hne4 : ¬ g.players.length ≠ 4 := by simp [hlen]
  rcases hphase with hf | hw
  · have hif : (if g.gamePhase = .finished then g.winner else g.lastWinner)
        = g.winner := if_pos hf
    have hsg : startGame g deck =
        ({ dealDominoes (resetRound g) deck with
            currentPlayerIndex :=
              match g.winner with
              | some Winner.team1 =>
                (match (dealDominoes (resetRound g) deck).players.findIdx?
                    (fun p => p.team == Team.team1) with
                  | some i => i
                  | none =>
                    findStartingPlayer (dealDominoes (resetRound g) deck))
              | some Winner.team2 =>
                (match (dealDominoes (resetRound g) deck).players.findIdx?
                    (fun p => p.team == Team.team2) with
                  | some i => i
                  | none =>
                    findStartingPlayer (dealDominoes (resetRound g) deck))
              | _ => findStartingPlayer (dealDominoes (resetRound g) deck),
            lastWinner := none,
            gamePhase := Phase.playing }, none) := by
      unfold startGame
      rw [if_neg hne4, if_pos (Or.inl hf), if_pos hf]
      rfl
    rw [hsg]
    refine ⟨rfl, rfl, rfl, fun _ => ⟨rfl, rfl, rfl⟩, ?_, ?_, ?_, ?_⟩
    · show ((resetRound g).players.enum.map _).length = 4
      rw [List.length_map, List.enum_length]
      show (g.players.map _).length = 4
      rw [List.length_map, hlen]
    · intro i hi
      cases hgq : g.players.get? i with
      | none =>
        exfalso
        rw [List.get?_eq_none] at hgq
        omega
      | some q =>
        refine ⟨{ q with hand := (deck.drop (i * 7)).take 7 }, q, rfl,
          ?_, rfl, ?_, rfl⟩
        · show (dealDominoes (resetRound g) deck).players.get? i = _
          rw [deal_players_get?, reset_players_get?, hgq]
          rfl
        · show ((deck.drop (i * 7)).take 7).length = 7
          rw [List.length_take, List.length_drop, hdlen]
          omega
    · intro t hlw j hj
      rw [hif] at hlw
      cases t with
      | team1 =>
        rw [hlw]
        show (match (dealDominoes (resetRound g) deck).players.findIdx?
            (fun p => p.team == Team.team1) with
          | some i => i
          | none => findStartingPlayer (dealDominoes (resetRound g) deck)) = j
        rw [deal_findIdx?_team, reset_findIdx?_team, hj]
      | team2 =>
        rw [hlw]
        show (match (dealDominoes (resetRound g) deck).players.findIdx?
            (fun p => p.team == Team.team2) with
          | some i => i
          | none => findStartingPlayer (dealDominoes (resetRound g) deck)) = j
        rw [deal_findIdx?_team, reset_findIdx?_team, hj]
    · intro hlw
      rw [hif] at hlw
      have hidx : (match g.winner with
          | some Winner.team1 =>
            (match (dealDominoes (resetRound g) deck).players.findIdx?
                (fun p => p.team == Team.team1) with
              | some i => i
              | none => findStartingPlayer (dealDominoes (resetRound g) deck))
          | some Winner.team2 =>
            (match (dealDominoes (resetRound g) deck).players.findIdx?
                (fun p => p.team == Team.team2) with
              | some i => i
              | none => findStartingPlayer (dealDominoes (resetRound g) deck))
          | _ => findStartingPlayer (dealDominoes (resetRound g) deck))
          = findStartingPlayer (dealDominoes (resetRound g) deck) := by
        rcases hlw with h | h <;> rw [h]
      show opensWithHighestDouble (dealDominoes (resetRound g) deck).players _
      rw [hidx]
      exact findStartingPlayer_opens (dealDominoes (resetRound g) deck)
  · have hnf : ¬ g.gamePhase = Phase.finished := by simp [hw]
    have hif : (if g.gamePhase = .finished then g.winner else g.lastWinner)
        = g.lastWinner := if_neg hnf
    have hsg : startGame g deck =
        ({ dealDominoes g deck with
            currentPlayerIndex :=
              match g.lastWinner with
              | some Winner.team1 =>
                (match (dealDominoes g deck).players.findIdx?
                    (fun p => p.team == Team.team1) with
                  | some i => i
                  | none => findStartingPlayer (dealDominoes g deck))
              | some Winner.team2 =>
                (match (dealDominoes g deck).players.findIdx?
                    (fun p => p.team == Team.team2) with
                  | some i => i
                  | none => findStartingPlayer (dealDominoes g deck))
              | _ => findStartingPlayer (dealDominoes g deck),
            lastWinner := none,
            gamePhase := Phase.playing }, none) := by
      unfold startGame
      rw [if_neg hne4, if_pos (Or.inr hw), if_neg hnf]
      rfl
    rw [hsg]
    refine ⟨rfl, rfl, rfl, fun hfin => absurd hfin hnf, ?_, ?_, ?_, ?_⟩
    · show (g.players.enum.map _).length = 4
      rw [List.length_map, List.enum_length, hlen]
    · intro i hi
      cases hgq : g.players.get? i with
      | none =>
        exfalso
        rw [List.get?_eq_none] at hgq
        omega
      | some q =>
        refine ⟨{ q with hand := (deck.drop (i * 7)).take 7 }, q, rfl,
          ?_, rfl, ?_, rfl⟩
        · show (dealDominoes g deck).players.get? i = _
          rw [deal_players_get?, hgq]
          rfl
        · show ((deck.drop (i * 7)).take 7).length = 7
          rw [List.length_take, List.length_drop, hdlen]
          omega
    · intro t hlw j hj
      rw [hif] at hlw
      cases t with
      | team1 =>
        rw [hlw]
        show (match (dealDominoes g deck).players.findIdx?
            (fun p => p.team == Team.team1) with
          | some i => i
          | none => findStartingPlayer (dealDominoes g deck)) = j
        rw [deal_findIdx?_team, hj]
      | team2 =>
        rw [hlw]
        show (match (dealDominoes g deck).players.findIdx?
            (fun p => p.team == Team.team2) with
          | some i => i
          | none => findStartingPlayer (dealDominoes g deck)) = j
        rw [deal_findIdx?_team, hj]
    · intro hlw
      rw [hif] at hlw
      have hidx : (match g.lastWinner with
          | some Winner.team1 =>
            (match (dealDominoes g deck).players.findIdx?
                (fun p => p.team == Team.team1) with
              | some i => i
              | none => findStartingPlayer (dealDominoes g deck))
          | some Winner.team2 =>
            (match (dealDominoes g deck).players.findIdx?
                (fun p => p.team == Team.team2) with
              | some i => i
              | none => findStartingPlayer (dealDominoes g deck))
          | _ => findStartingPlayer (dealDominoes g deck))
          = findStartingPlayer (dealDominoes g deck) := by
        rcases hlw with h | h <;> rw [h]
      show opensWithHighestDouble (dealDominoes g deck).players _
      rw [hidx]
      exact findStartingPlayer_opens (dealDominoes g deck)
/-- Waiting 4-seat room for the C7 witness. -/
def c7WGame : GameState :=
  { players := [mkSeat 50 0 .team1 [], mkSeat 51 1 .team2 [],
      mkSeat 52 2 .team1 [], mkSeat 53 3 .team2 []],
    board := [], boardLeftEnd := -1, boardRightEnd := -1,
    currentPlayerIndex := 0, gamePhase := .waiting, winner := none,
    passCount := 0, scores := { team1 := 0, team2 := 0 },
    gameMode := .multiplayer, aiDifficulty := .medium, lastWinner := none }

/-- Witness for C7: starting the waiting 4-seat room with the identity
shuffle succeeds and enters the playing phase. -/
theorem c7_startGame_contract_witness :
    (startGame c7WGame generateDominoes).2 = none ∧
    (startGame c7WGame generateDominoes).1.gamePhase = .playing :=
  ⟨(c7_startGame_contract c7WGame generateDominoes rfl (List.Perm.refl _)
      (Or.inr rfl)).1,
   (c7_startGame_contract c7WGame generateDominoes rfl (List.Perm.refl _)
      (Or.inr rfl)).2.1⟩
